import Mathlib

/-!
# Verification model of the ART JIT code cache (`runtime/jit/jit_code_cache.cc`)

A shallow embedding of `art::jit::JitCodeCache`.  Machine addresses and sizes
are modelled as `Nat`; the two dlmalloc `mspace`s are modelled by the region
allocator contract of the spec (§4.2), since dlmalloc itself is a third-party
library outside this repository; everything else (the catalog `method_code_map_`,
the profiling list `profiling_infos_`, the per-cycle liveness bitmap, the
capacity/footprint policy, the collector, and the facade operations) is
translated directly from `jit_code_cache.cc`.  Stateful C++ is rendered as
explicit state passing on `CacheState`; mutable `ArtMethod` objects are a total
map from method identity to the fields the cache touches (entry point, hotness
counter, profiling-info slot, cf. `runtime/art_method.h`).
-/

namespace JitCache

/-- `kPageSize` on the targeted platforms (4 KiB). -/
def kPageSize : Nat := 4096

/-- `MB` from `base/globals` : one mebibyte. -/
def MB : Nat := 1024 * 1024

/-- `GB` : one gibibyte (`1 * GB` is the cap checked in `JitCodeCache::Create`). -/
def GB : Nat := 1024 * 1024 * 1024

/-- `RoundDown(x, n)` from `base/bit_utils.h`: round `x` down to a multiple of `n`. -/
def roundDown (x n : Nat) : Nat := x - x % n

/-- `RoundUp(x, n)`: round `x` up to a multiple of `n`. -/
def roundUp (x n : Nat) : Nat := roundDown (x + n - 1) n

/-- The `OatQuickMethodHeader` fields the cache reads and writes: the three
relative offsets to auxiliary data-region blobs (0 meaning absent), the frame
info words, and the code size.  Written once by `CommitCodeInternal` via
placement new, read by `FreeCode` and `LookupMethodHeader`. -/
structure MethodHeader where
  mappingTableOffset : Nat
  vmapTableOffset : Nat
  gcMapOffset : Nat
  frameSizeInBytes : Nat
  coreSpillMask : Nat
  fpSpillMask : Nat
  codeSize : Nat
deriving DecidableEq

/-- One entry of `method_code_map_`: the key `codePtr` (start address of the
native instructions), the value `method` (the owning `ArtMethod*`, modelled by
a numeric identity), and the `OatQuickMethodHeader` that the commit wrote into
memory immediately before `codePtr` (the C++ map stores only key and value; the
header is recovered from memory at `FromCodePointer(code_ptr)`, so carrying it
in the entry is observationally the same). -/
structure CodeEntry where
  codePtr : Nat
  method : Nat
  header : MethodHeader
deriving DecidableEq

/-- The `ArtMethod` state the cache mutates: the quick entry point
(`SetEntryPointFromQuickCompiledCode`, via instrumentation
`UpdateMethodsCode`), the hotness counter (`ClearCounter`), and the profiling
info slot (`SetProfilingInfo` / `GetProfilingInfo`). -/
structure MethodState where
  entryPoint : Nat
  counter : Nat
  profilingInfo : Option Nat
deriving DecidableEq

/-- Modelled from the spec: the region allocator contract of §4.2 for one
dlmalloc `mspace` (dlmalloc itself is not part of this repository).  `allocs`
is the list of live allocations as `(address, size)` pairs; `footprintLimit`
is the soft ceiling set by `mspace_set_footprint_limit`; `nextAddr` is the
next fresh address handed out.  `Allocate` returns null exactly when the
request cannot be satisfied within the current footprint limit; `Free`
releases a previously allocated block; `InspectAllocatedBytes` reports the
total bytes in use without mutating state. -/
structure Mspace where
  allocs : List (Nat × Nat)
  footprintLimit : Nat
  nextAddr : Nat
deriving DecidableEq

/-- `mspace_inspect_all` with `DlmallocBytesAllocatedCallback`: total bytes
currently allocated in the mspace. -/
def bytesInUse (ms : Mspace) : Nat := (ms.allocs.map Prod.snd).sum

/-- Modelled from the spec (§4.2): `mspace_malloc` / `mspace_memalign`.
Succeeds and returns a fresh address exactly when the request fits under the
footprint limit. -/
def mspaceAlloc (ms : Mspace) (size : Nat) : Option (Nat × Mspace) :=
  if bytesInUse ms + size ≤ ms.footprintLimit then
    some (ms.nextAddr,
      { ms with allocs := (ms.nextAddr, size) :: ms.allocs,
                nextAddr := ms.nextAddr + size })
  else
    none

/-- Modelled from the spec (§4.2): `mspace_free`.  Releases the allocation at
`addr`; freeing a pointer that is not a live allocation is undefined behaviour
in the source (caller's responsibility), modelled here as a no-op. -/
def mspaceFree (ms : Mspace) (addr : Nat) : Mspace :=
  { ms with allocs := ms.allocs.filter (fun a => a.fst ≠ addr) }

/-- The addresses of the live allocations of an mspace. -/
def allocAddrs (ms : Mspace) : List Nat := ms.allocs.map Prod.fst

/-- The whole `JitCodeCache` state.  The first five fields are process
constants fixed at construction: `headerSize` is
`RoundUp(sizeof(OatQuickMethodHeader), GetInstructionSetAlignment(kRuntimeISA))`,
`ptrSize` is `sizeof(void*)`, `piSize`/`icSize` are
`sizeof(ProfilingInfo)`/`sizeof(ProfilingInfo::InlineCache)`, and
`interpreterBridge` is `GetQuickToInterpreterBridge()`.  `codeBegin`/`codeEnd`
are `code_map_->Begin()`/`code_map_->End()`.  `methods` models the mutable
`ArtMethod` objects reachable from the cache.  `gcCount` counts completed
calls of `GarbageCollectCache` (for stating the at-most-one-retry property);
it shadows no source field and influences no behaviour. -/
structure CacheState where
  headerSize : Nat
  ptrSize : Nat
  piSize : Nat
  icSize : Nat
  interpreterBridge : Nat
  codeBegin : Nat
  codeEnd : Nat
  maxCapacity : Nat
  currentCapacity : Nat
  hasDoneOneCollection : Bool
  collectionInProgress : Bool
  gcCount : Nat
  liveBitmap : Option (List Nat)
  codeMspace : Mspace
  dataMspace : Mspace
  methodCodeMap : List CodeEntry
  methods : Nat → MethodState
  profilingInfos : List (Nat × Nat)

/-- Pointwise update of the `ArtMethod` map. -/
def setM (f : Nat → MethodState) (k : Nat) (v : MethodState) : Nat → MethodState :=
  fun k' => if k' = k then v else f k'

/-- `FromCodeToAllocation(code)`: the start of the allocation holding a
compiled entry, `code - RoundUp(sizeof(OatQuickMethodHeader), alignment)`. -/
def fromCodeToAllocation (hs code : Nat) : Nat := code - hs

/-- `JitCodeCache::ContainsPc`: `code_map_->Begin() <= ptr < code_map_->End()`. -/
def containsPc (st : CacheState) (pc : Nat) : Bool :=
  decide (st.codeBegin ≤ pc) && decide (pc < st.codeEnd)

/-- Modelled from the spec: `OatQuickMethodHeader::Contains(pc)` (the header
type lives outside this repository's sources); per §4.3 the lookup verifies
that "P falls within that entry's recorded length", i.e. `pc` lies in
`[codePtr, codePtr + codeSize)`. -/
def headerContains (e : CodeEntry) (pc : Nat) : Bool :=
  decide (e.codePtr ≤ pc) && decide (pc < e.codePtr + e.header.codeSize)

/-- Modelled from the spec: `OatQuickMethodHeader::GetEntryPoint()` is the
native code address of the compiled entry, i.e. `codePtr`. -/
def headerEntryPoint (e : CodeEntry) : Nat := e.codePtr

/-- `JitCodeCache::SetFootprintLimit`: split `new_footprint` evenly and apply
half to each mspace via `mspace_set_footprint_limit`. -/
def setFootprintLimit (newFootprint : Nat) (st : CacheState) : CacheState :=
  { st with
    dataMspace := { st.dataMspace with footprintLimit := newFootprint / 2 },
    codeMspace := { st.codeMspace with footprintLimit := newFootprint / 2 } }

/-- The capacity value the growth step computes: double below 1 MB, add 1 MB
at or above 1 MB, then clamp to `max_capacity_`. -/
def grownCapacity (st : CacheState) : Nat :=
  let c0 := if st.currentCapacity < MB then st.currentCapacity * 2
            else st.currentCapacity + MB
  if c0 > st.maxCapacity then st.maxCapacity else c0

/-- `JitCodeCache::IncreaseCodeCacheCapacity`: returns false at max capacity;
otherwise doubles the capacity below 1 MB, adds 1 MB at or above it, clamps to
`max_capacity_`, and re-applies the footprint limit. -/
def increaseCodeCacheCapacity (st : CacheState) : Bool × CacheState :=
  if st.currentCapacity = st.maxCapacity then
    (false, st)
  else
    (true, setFootprintLimit (grownCapacity st)
      { st with currentCapacity := grownCapacity st })

/-- `JitCodeCache::FreeCode` (minus the unused `method` argument): free, in
source order, the GC map, the mapping table and the vmap table (each skipped
when its header offset is 0, i.e. the blob is absent), then the code
allocation itself at `FromCodeToAllocation(code_ptr)`.  Returns the updated
(code mspace, data mspace) pair. -/
def freeCode (hs : Nat) (e : CodeEntry) (cms dms : Mspace) : Mspace × Mspace :=
  let dms := if e.header.gcMapOffset ≠ 0 then
               mspaceFree dms (e.codePtr - e.header.gcMapOffset) else dms
  let dms := if e.header.mappingTableOffset ≠ 0 then
               mspaceFree dms (e.codePtr - e.header.mappingTableOffset) else dms
  let dms := if e.header.vmapTableOffset ≠ 0 then
               mspaceFree dms (e.codePtr - e.header.vmapTableOffset) else dms
  (mspaceFree cms (fromCodeToAllocation hs e.codePtr), dms)

/-- The entry-point reset loop of `GarbageCollectCache` (lines 535-537):
`UpdateMethodsCode(it.second, GetQuickToInterpreterBridge())` for every
catalog entry. -/
def resetEntryPoints (bridge : Nat) (entries : List CodeEntry)
    (ms : Nat → MethodState) : Nat → MethodState :=
  entries.foldl (fun f e => setM f e.method { entryPoint := bridge, counter := (f e.method).counter, profilingInfo := (f e.method).profilingInfo }) ms

/-- The profiling-detach loop of `GarbageCollectCache` (lines 538-540):
`info->GetMethod()->SetProfilingInfo(nullptr)` for every profiling record. -/
def detachProfiling (infos : List (Nat × Nat))
    (ms : Nat → MethodState) : Nat → MethodState :=
  infos.foldl (fun f r => setM f r.snd { entryPoint := (f r.snd).entryPoint, counter := (f r.snd).counter, profilingInfo := none }) ms

/-- The start of a collecting cycle (lines 519-541): allocate the fresh
liveness bitmap, reset every mapped method's entry point to the interpreter
bridge, and detach every profiling record from its method. -/
def prepPhase (st : CacheState) : CacheState :=
  { st with
    liveBitmap := some [],
    methods := detachProfiling st.profilingInfos
                 (resetEntryPoints st.interpreterBridge st.methodCodeMap st.methods) }

/-- The checkpoint marking phase (lines 543-556): each thread's stack walk
sets, with an atomic test-and-set, the bitmap bit of the allocation of every
compiled entry found on a stack.  The set of allocation addresses the threads
mark is external input (the threads' stacks are outside this subsystem), so it
is a parameter `marked`; the bits already in the bitmap (e.g. set by a commit
that published during this cycle) are kept. -/
def markPhase (marked : List Nat) (st : CacheState) : CacheState :=
  { st with liveBitmap := st.liveBitmap.map (fun bs => bs ++ marked) }

/-- The sweep loop of `GarbageCollectCache` (lines 563-577): for each catalog
entry, if its allocation's bitmap bit is set, restore the owning method's
entry point to the header's native entry point and keep the entry; otherwise
clear the method's counter, free the entry with `FreeCode`, and drop it from
the catalog.  Returns (surviving entries, methods, code mspace, data mspace). -/
def sweepEntries (hs : Nat) (bs : List Nat) :
    List CodeEntry → (Nat → MethodState) → Mspace → Mspace →
    (List CodeEntry × (Nat → MethodState) × Mspace × Mspace)
  | [], ms, cms, dms => ([], ms, cms, dms)
  | e :: tl, ms, cms, dms =>
    if fromCodeToAllocation hs e.codePtr ∈ bs then
      let ms1 := setM ms e.method { entryPoint := headerEntryPoint e, counter := (ms e.method).counter, profilingInfo := (ms e.method).profilingInfo }
      let r := sweepEntries hs bs tl ms1 cms dms
      (e :: r.fst, r.snd)
    else
      let ms1 := setM ms e.method { entryPoint := (ms e.method).entryPoint, counter := 0, profilingInfo := (ms e.method).profilingInfo }
      let f := freeCode hs e cms dms
      sweepEntries hs bs tl ms1 f.fst f.snd

/-- The tail of a collecting cycle (lines 558-590): sweep the catalog, free
every profiling record and clear the list, discard the bitmap, set
`has_done_one_collection_`, and broadcast completion
(`NotifyCollectionDone`). -/
def sweepPhase (st : CacheState) : CacheState :=
  let bs := st.liveBitmap.getD []
  let r := sweepEntries st.headerSize bs st.methodCodeMap st.methods
             st.codeMspace st.dataMspace
  { st with
    methodCodeMap := r.fst,
    methods := r.snd.fst,
    codeMspace := r.snd.snd.fst,
    dataMspace := st.profilingInfos.foldl (fun d p => mspaceFree d p.fst) r.snd.snd.snd,
    profilingInfos := [],
    liveBitmap := none,
    hasDoneOneCollection := true,
    collectionInProgress := false }

/-- A full marking-plus-sweeping collection (the non-growth path of
`GarbageCollectCache`). -/
def collectPhase (marked : List Nat) (st : CacheState) : CacheState :=
  sweepPhase (markPhase marked (prepPhase st))

/-- `JitCodeCache::GarbageCollectCache`.  The initial wait-or-start block is
the sequential identity (no concurrent collection in a sequential run); then
the source tests `has_done_one_collection_ && IncreaseCodeCacheCapacity()`
(short-circuit: the capacity call only runs when the flag is set): on success
the cycle only grows, clears the flag and completes; otherwise it collects.
`marked` is the set of allocation addresses the checkpointed stack walks
report live.  `gcStart` is the entry block (lines 499-508): in the sequential
model no other collection is running, so the cycle starts, setting the
in-progress flag (and bumping the model's cycle counter). -/
def gcStart (st : CacheState) : CacheState :=
  { st with collectionInProgress := true, gcCount := st.gcCount + 1 }

def garbageCollectCache (marked : List Nat) (st : CacheState) : CacheState :=
  let st := gcStart st
  if st.hasDoneOneCollection then
    let g := increaseCodeCacheCapacity st
    if g.fst then
      { g.snd with hasDoneOneCollection := false, collectionInProgress := false }
    else
      collectPhase marked g.snd
  else
    collectPhase marked st

/-- Insertion into the ordered map `method_code_map_` (`SafeMap::Put`): the
list is kept sorted by `codePtr`; `Put` requires the key to be fresh. -/
def insertEntry (e : CodeEntry) : List CodeEntry → List CodeEntry
  | [] => [e]
  | a :: tl =>
    if e.codePtr < a.codePtr then e :: a :: tl
    else if e.codePtr = a.codePtr then e :: tl
    else a :: insertEntry e tl

/-- The `OatQuickMethodHeader` `CommitCodeInternal` writes via placement new:
each of the three offsets is `code_ptr - table` for a non-null table and 0
(absent) otherwise. -/
def commitHeader (mappingTable vmapTable gcMap : Option Nat)
    (frameSizeInBytes coreSpillMask fpSpillMask codeSize codePtr : Nat) :
    MethodHeader :=
  { mappingTableOffset := match mappingTable with
                          | none => 0
                          | some a => codePtr - a,
    vmapTableOffset := match vmapTable with
                       | none => 0
                       | some a => codePtr - a,
    gcMapOffset := match gcMap with
                   | none => 0
                   | some a => codePtr - a,
    frameSizeInBytes := frameSizeInBytes,
    coreSpillMask := coreSpillMask,
    fpSpillMask := fpSpillMask,
    codeSize := codeSize }

/-- The catalog entry `CommitCodeInternal` publishes. -/
def commitEntry (method : Nat) (mappingTable vmapTable gcMap : Option Nat)
    (frameSizeInBytes coreSpillMask fpSpillMask codeSize codePtr : Nat) :
    CodeEntry :=
  { codePtr := codePtr,
    method := method,
    header := commitHeader mappingTable vmapTable gcMap frameSizeInBytes
      coreSpillMask fpSpillMask codeSize codePtr }

/-- The publication half of `CommitCodeInternal` (its second lock section,
lines 309-327): install the rewritten code mspace, insert the catalog entry,
rewrite the method's entry point to the header's entry point, and — when a
collection is in progress — set the new allocation's bit in the live bitmap
with `AtomicTestAndSet`. -/
def commitPublish (method : Nat) (mappingTable vmapTable gcMap : Option Nat)
    (frameSizeInBytes coreSpillMask fpSpillMask codeSize codePtr : Nat)
    (cms : Mspace) (st : CacheState) : CacheState :=
  let e := commitEntry method mappingTable vmapTable gcMap frameSizeInBytes
    coreSpillMask fpSpillMask codeSize codePtr
  let st1 := { st with
    codeMspace := cms,
    methodCodeMap := insertEntry e st.methodCodeMap,
    methods := setM st.methods method
      { entryPoint := headerEntryPoint e,
        counter := (st.methods method).counter,
        profilingInfo := (st.methods method).profilingInfo } }
  if st1.collectionInProgress then
    { st1 with liveBitmap := st1.liveBitmap.map (fun bs => bs ++ [fromCodeToAllocation st1.headerSize codePtr]) }
  else st1

/-- `JitCodeCache::CommitCodeInternal`.  Waits out any in-progress collection
(sequential identity here), allocates `header_size + code_size` bytes in the
code mspace with `mspace_memalign`, writes code and header, and publishes via
`commitPublish`.  Returns the new entry's `codePtr` as the non-null success
token (the returned header pointer identifies the same entry) alongside the
new state. -/
def commitCodeInternal (method : Nat)
    (mappingTable vmapTable gcMap : Option Nat)
    (frameSizeInBytes coreSpillMask fpSpillMask : Nat)
    (codeSize : Nat) (st : CacheState) : Option Nat × CacheState :=
  match mspaceAlloc st.codeMspace (st.headerSize + codeSize) with
  | none => (none, st)
  | some (result, cms) =>
    (some (result + st.headerSize),
      commitPublish method mappingTable vmapTable gcMap frameSizeInBytes
        coreSpillMask fpSpillMask codeSize (result + st.headerSize) cms st)

/-- `JitCodeCache::CommitCode`: try `CommitCodeInternal`; on null, run one
`GarbageCollectCache` and retry exactly once. -/
def commitCode (method : Nat)
    (mappingTable vmapTable gcMap : Option Nat)
    (frameSizeInBytes coreSpillMask fpSpillMask : Nat)
    (codeSize : Nat) (marked : List Nat) (st : CacheState) : Option Nat × CacheState :=
  match commitCodeInternal method mappingTable vmapTable gcMap
      frameSizeInBytes coreSpillMask fpSpillMask codeSize st with
  | (some r, st1) => (some r, st1)
  | (none, st1) =>
    commitCodeInternal method mappingTable vmapTable gcMap
      frameSizeInBytes coreSpillMask fpSpillMask codeSize
      (garbageCollectCache marked st1)

/-- `JitCodeCache::ReserveData`: round the size up to `sizeof(void*)`, try
`mspace_malloc` on the data mspace; on null run one `GarbageCollectCache` and
retry exactly once. -/
def reserveData (size : Nat) (marked : List Nat) (st : CacheState) :
    Option Nat × CacheState :=
  let sz := roundUp size st.ptrSize
  match mspaceAlloc st.dataMspace sz with
  | some (addr, dms) => (some addr, { st with dataMspace := dms })
  | none =>
    let st1 := garbageCollectCache marked st
    match mspaceAlloc st1.dataMspace sz with
    | some (addr, dms) => (some addr, { st1 with dataMspace := dms })
    | none => (none, st1)

/-- `JitCodeCache::ClearData`: free a data-region blob. -/
def clearData (addr : Nat) (st : CacheState) : CacheState :=
  { st with dataMspace := mspaceFree st.dataMspace addr }

/-- `JitCodeCache::AddProfilingInfoInternal`: compute the record size, wait
out any collection (sequential identity), return the method's existing record
unchanged if one is attached, otherwise allocate in the data mspace, attach
the record to the method and append it to `profiling_infos_`. -/
def addProfilingInfoInternal (method entriesLen : Nat) (st : CacheState) :
    Option Nat × CacheState :=
  match (st.methods method).profilingInfo with
  | some info => (some info, st)
  | none =>
    match mspaceAlloc st.dataMspace
        (roundUp (st.piSize + st.icSize * entriesLen) st.ptrSize) with
    | none => (none, st)
    | some (data, dms) =>
      (some data,
        { st with
          dataMspace := dms,
          methods := setM st.methods method
                       { entryPoint := (st.methods method).entryPoint, counter := (st.methods method).counter, profilingInfo := some data },
          profilingInfos := st.profilingInfos ++ [(data, method)] })

/-- `JitCodeCache::AddProfilingInfo`: one retry after a collection when
`retry_allocation` is set. -/
def addProfilingInfo (method entriesLen : Nat) (retryAllocation : Bool)
    (marked : List Nat) (st : CacheState) : Option Nat × CacheState :=
  match addProfilingInfoInternal method entriesLen st with
  | (some i, st1) => (some i, st1)
  | (none, st1) =>
    if retryAllocation then
      addProfilingInfoInternal method entriesLen (garbageCollectCache marked st1)
    else
      (none, st1)

/-- `JitCodeCache::RemoveMethodsIn`: free and drop every catalog entry whose
method belongs to the discarded allocation scope (the scope membership test
`alloc.ContainsUnsafe` is external input, passed as the set `owned`). -/
def removeEntriesIn (hs : Nat) (owned : List Nat) :
    List CodeEntry → Mspace → Mspace → (List CodeEntry × Mspace × Mspace)
  | [], cms, dms => ([], cms, dms)
  | e :: tl, cms, dms =>
    if e.method ∈ owned then
      let f := freeCode hs e cms dms
      removeEntriesIn hs owned tl f.fst f.snd
    else
      let r := removeEntriesIn hs owned tl cms dms
      (e :: r.fst, r.snd)

/-- The profiling half of `RemoveMethodsIn`: detach and free every profiling
record whose method is in the scope. -/
def removeProfilingIn (owned : List Nat) :
    List (Nat × Nat) → (Nat → MethodState) → Mspace →
    (List (Nat × Nat) × (Nat → MethodState) × Mspace)
  | [], ms, dms => ([], ms, dms)
  | p :: tl, ms, dms =>
    if p.snd ∈ owned then
      let ms1 := setM ms p.snd { entryPoint := (ms p.snd).entryPoint, counter := (ms p.snd).counter, profilingInfo := none }
      removeProfilingIn owned tl ms1 (mspaceFree dms p.fst)
    else
      let r := removeProfilingIn owned tl ms dms
      (p :: r.fst, r.snd)

/-- `JitCodeCache::RemoveMethodsIn` assembled. -/
def removeMethodsIn (owned : List Nat) (st : CacheState) : CacheState :=
  let r := removeEntriesIn st.headerSize owned st.methodCodeMap
             st.codeMspace st.dataMspace
  let q := removeProfilingIn owned st.profilingInfos st.methods r.snd.snd
  { st with
    methodCodeMap := r.fst,
    codeMspace := r.snd.fst,
    methods := q.snd.fst,
    profilingInfos := q.fst,
    dataMspace := q.snd.snd }

/-- `JitCodeCache::LookupMethodHeader` (non-ARM, so no pc adjustment): return
null when `pc` is outside the code region or the map is empty; otherwise take
`method_code_map_.lower_bound(pc)` and decrement it — for the sorted map this
yields the entry with the greatest `codePtr` strictly below `pc` (when no such
entry exists the decrement of `begin()` is undefined behaviour in the source;
modelled as null) — and return its header when `Contains(pc)` holds, null
otherwise. -/
def lookupMethodHeader (st : CacheState) (pc : Nat) : Option MethodHeader :=
  if containsPc st pc = false then none
  else if st.methodCodeMap.isEmpty then none
  else
    match (st.methodCodeMap.filter (fun e => decide (e.codePtr < pc))).getLast? with
    | none => none
    | some e => if headerContains e pc then some e.header else none

/-- The state the `JitCodeCache` constructor builds on the success path of
`Create`: capacities rounded down to `2 * kPageSize`, the region split at
`max/2` (data sub-region `[0, max/2)`, code sub-region `[max/2, end)` with
the map's end at the unrounded requested max), both mspaces empty, and the
footprint limit split evenly over the initial capacity
(`SetFootprintLimit(current_capacity_)`). -/
def createdState (hs ps pis ics bridge : Nat)
    (initialCapacity maxCapacity : Nat) : CacheState :=
  let ic := roundDown initialCapacity (2 * kPageSize)
  let mc := roundDown maxCapacity (2 * kPageSize)
  let dataSize := mc / 2
  let initialDataSize := ic / 2
  let initialCodeSize := ic - initialDataSize
  setFootprintLimit (initialCodeSize + initialDataSize)
    { headerSize := hs,
      ptrSize := ps,
      piSize := pis,
      icSize := ics,
      interpreterBridge := bridge,
      codeBegin := dataSize,
      codeEnd := maxCapacity,
      maxCapacity := mc,
      currentCapacity := initialCodeSize + initialDataSize,
      hasDoneOneCollection := false,
      collectionInProgress := false,
      gcCount := 0,
      liveBitmap := none,
      codeMspace := { allocs := [], footprintLimit := 0, nextAddr := dataSize },
      dataMspace := { allocs := [], footprintLimit := 0, nextAddr := 0 },
      methodCodeMap := [],
      methods := fun _ => { entryPoint := bridge, counter := 0, profilingInfo := none },
      profilingInfos := [] }

/-- `JitCodeCache::Create` followed by the `JitCodeCache` constructor.
Inputs: the process constants, the requested capacities, and whether the two
platform mapping calls (`MemMap::MapAnonymous`, `MemMap::RemapAtEnd`) succeed
(external platform outcomes).  Rejects a max capacity above 1 GB with the
named error, propagates mapping failures as named errors, and otherwise
builds `createdState`.  On any error no cache is created. -/
def create (hs ps pis ics bridge : Nat) (initialCapacity maxCapacity : Nat)
    (mapOk remapOk : Bool) : Except String CacheState :=
  if maxCapacity > 1 * GB then
    Except.error "Maxium code cache capacity is limited to 1 GB"
  else if mapOk = false then
    Except.error "Failed to create read write execute cache"
  else if remapOk = false then
    Except.error "Failed to create read write execute cache"
  else
    Except.ok (createdState hs ps pis ics bridge initialCapacity maxCapacity)

/-- `CodeCacheSize` / `DataCacheSize`: bytes allocated in each mspace. -/
def codeCacheSize (st : CacheState) : Nat := bytesInUse st.codeMspace

/-- `DataCacheSize`. -/
def dataCacheSize (st : CacheState) : Nat := bytesInUse st.dataMspace

/-- One externally triggered cache operation, with all external inputs
(method identities, blob addresses, sizes, the stack-walk marking set, the
unloaded scope) as parameters. -/
inductive Op where
  | commit (method : Nat) (mappingTable vmapTable gcMap : Option Nat)
      (frameSizeInBytes coreSpillMask fpSpillMask codeSize : Nat)
      (marked : List Nat) : Op
  | reserve (size : Nat) (marked : List Nat) : Op
  | clear (addr : Nat) : Op
  | collect (marked : List Nat) : Op
  | addProfiling (method entriesLen : Nat) (retryAllocation : Bool)
      (marked : List Nat) : Op
  | removeIn (owned : List Nat) : Op

/-- Apply one operation to the cache state (return values dropped). -/
def applyOp (st : CacheState) : Op → CacheState
  | Op.commit m mt vt gm fs cs fps sz marked =>
    (commitCode m mt vt gm fs cs fps sz marked st).snd
  | Op.reserve size marked => (reserveData size marked st).snd
  | Op.clear addr => clearData addr st
  | Op.collect marked => garbageCollectCache marked st
  | Op.addProfiling m el retryAllocation marked =>
    (addProfilingInfo m el retryAllocation marked st).snd
  | Op.removeIn owned => removeMethodsIn owned st

/-- Run a sequence of operations from a state. -/
def run (st : CacheState) (ops : List Op) : CacheState := ops.foldl applyOp st

/-- The capacity invariant of §8, strengthened with the bookkeeping facts
that make it inductive: each mspace respects its footprint limit, the two
limits are each half of `current_capacity`, both capacities are even (they
are kept multiples of `2 * kPageSize`), and the current capacity never
exceeds the max. -/
def CapInv (st : CacheState) : Prop :=
  bytesInUse st.codeMspace ≤ st.codeMspace.footprintLimit ∧
  bytesInUse st.dataMspace ≤ st.dataMspace.footprintLimit ∧
  st.codeMspace.footprintLimit = st.currentCapacity / 2 ∧
  st.dataMspace.footprintLimit = st.currentCapacity / 2 ∧
  st.currentCapacity % 2 = 0 ∧
  st.maxCapacity % 2 = 0 ∧
  st.currentCapacity ≤ st.maxCapacity

/-- A fallback state (only used to make example extraction total). -/
def exDefault : CacheState :=
  { headerSize := 0, ptrSize := 0, piSize := 0, icSize := 0,
    interpreterBridge := 0, codeBegin := 0, codeEnd := 0, maxCapacity := 0,
    currentCapacity := 0, hasDoneOneCollection := false,
    collectionInProgress := false, gcCount := 0, liveBitmap := none,
    codeMspace := { allocs := [], footprintLimit := 0, nextAddr := 0 },
    dataMspace := { allocs := [], footprintLimit := 0, nextAddr := 0 },
    methodCodeMap := [],
    methods := fun _ => { entryPoint := 0, counter := 0, profilingInfo := none },
    profilingInfos := [] }

/-- A concrete freshly constructed cache: header size 64, pointer size 8,
profiling record sizes 64/16, interpreter bridge at address 7, initial
capacity 8 KiB, max capacity 16 KiB, both platform mappings succeeding. -/
def exFresh : CacheState :=
  match create 64 8 64 16 7 8192 16384 true true with
  | Except.ok s => s
  | Except.error _ => exDefault

/-- `exFresh` after committing code for method 5 (code size 100). -/
def exCommitted : CacheState :=
  (commitCode 5 none none none 0 0 0 100 [] exFresh).snd

/-- A concrete committed entry: code at address 100, code size 10. -/
def exEntry100 : CodeEntry :=
  { codePtr := 100, method := 1,
    header := { mappingTableOffset := 0, vmapTableOffset := 0, gcMapOffset := 0,
                frameSizeInBytes := 0, coreSpillMask := 0, fpSpillMask := 0,
                codeSize := 10 } }

/-- A concrete committed entry: code at address 200, code size 10. -/
def exEntry200 : CodeEntry :=
  { codePtr := 200, method := 2,
    header := { mappingTableOffset := 0, vmapTableOffset := 0, gcMapOffset := 0,
                frameSizeInBytes := 0, coreSpillMask := 0, fpSpillMask := 0,
                codeSize := 10 } }

/-- A concrete cache state whose catalog holds the two entries above; the
code sub-region is `[0, 1000)`. -/
def exLookup : CacheState :=
  { exDefault with
    codeBegin := 0,
    codeEnd := 1000,
    methodCodeMap := [exEntry100, exEntry200] }

/-- The catalog entry `exCommitted` holds: method 5's code at address 8256
(allocation at 8192, header size 64), code size 100, no auxiliary tables. -/
def exEntryCommitted : CodeEntry := commitEntry 5 none none none 0 0 0 100 8256

/-- The concrete fresh cache after committing code for method 5 and then
attaching a profiling record to method 5. -/
def exProfiled : CacheState :=
  (addProfilingInfo 5 2 true [] exCommitted).snd

/-- The concrete cache driven to its max capacity: one (sweeping) collection
cycle followed by one growth cycle brings `exFresh` from 8 KiB to its 16 KiB
maximum. -/
def exAtMax : CacheState := garbageCollectCache [] (garbageCollectCache [] exFresh)

/-- The concrete fresh cache with a collection cycle artificially in
progress: flag set and an empty live bitmap allocated. -/
def exInProgress : CacheState :=
  { exFresh with collectionInProgress := true, liveBitmap := some [] }

-- =====================  Theorems  =====================

theorem setM_same (f : Nat → MethodState) (k : Nat) (v : MethodState) :
    setM f k v k = v := by
  simp [setM]

theorem setM_other (f : Nat → MethodState) (k : Nat) (v : MethodState)
    (k' : Nat) (h : k' ≠ k) : setM f k v k' = f k' := by
  simp [setM, h]

theorem roundDown_eq_mul_div (x n : Nat) : roundDown x n = n * (x / n) := by
  have h := Nat.mod_def x n
  have h2 := Nat.div_mul_le_self x n
  have h3 : x / n * n = n * (x / n) := Nat.mul_comm _ _
  unfold roundDown
  omega

theorem roundDown_mono (n : Nat) {x y : Nat} (h : x ≤ y) :
    roundDown x n ≤ roundDown y n := by
  rw [roundDown_eq_mul_div, roundDown_eq_mul_div]
  exact Nat.mul_le_mul_left n (Nat.div_le_div_right h)

theorem mspaceFree_allocs_sublist (ms : Mspace) (a : Nat) :
    (mspaceFree ms a).allocs.Sublist ms.allocs :=
  List.filter_sublist ms.allocs

theorem mspaceFree_commons (ms : Mspace) (a : Nat) :
    (mspaceFree ms a).footprintLimit = ms.footprintLimit ∧
    (mspaceFree ms a).nextAddr = ms.nextAddr := ⟨rfl, rfl⟩

theorem mspaceFree_self_not_mem (ms : Mspace) (a : Nat) :
    a ∉ allocAddrs (mspaceFree ms a) := by
  intro h
  simp only [allocAddrs, mspaceFree, List.mem_map, List.mem_filter] at h
  obtain ⟨p, ⟨_, hp⟩, hpa⟩ := h
  simp only [decide_eq_true_eq] at hp
  exact hp hpa

theorem not_mem_allocAddrs_of_sublist {ms₁ ms₂ : Mspace} {a : Nat}
    (hsub : ms₁.allocs.Sublist ms₂.allocs) (h : a ∉ allocAddrs ms₂) :
    a ∉ allocAddrs ms₁ := by
  intro hmem
  apply h
  simp only [allocAddrs, List.mem_map] at hmem ⊢
  obtain ⟨p, hp, hpa⟩ := hmem
  exact ⟨p, hsub.subset hp, hpa⟩

theorem bytesInUse_le_of_sublist {ms₁ ms₂ : Mspace}
    (hsub : ms₁.allocs.Sublist ms₂.allocs) : bytesInUse ms₁ ≤ bytesInUse ms₂ :=
  List.Sublist.sum_le_sum (hsub.map Prod.snd) (fun _ _ => Nat.zero_le _)

theorem mspaceAlloc_some {ms : Mspace} {size a : Nat} {ms' : Mspace}
    (h : mspaceAlloc ms size = some (a, ms')) :
    bytesInUse ms' = size + bytesInUse ms ∧
    ms'.footprintLimit = ms.footprintLimit ∧
    ms'.nextAddr = ms.nextAddr + size ∧
    bytesInUse ms + size ≤ ms.footprintLimit ∧
    a = ms.nextAddr := by
  unfold mspaceAlloc at h
  split at h
  · injection h with h1
    injection h1 with ha hms
    subst ha
    subst hms
    refine ⟨by simp [bytesInUse], rfl, rfl, by assumption, rfl⟩
  · exact absurd h (by simp)

theorem freeCode_fst (hs : Nat) (e : CodeEntry) (cms dms : Mspace) :
    (freeCode hs e cms dms).fst =
      mspaceFree cms (fromCodeToAllocation hs e.codePtr) := rfl

theorem freeCode_snd_sublist (hs : Nat) (e : CodeEntry) (cms dms : Mspace) :
    (freeCode hs e cms dms).snd.allocs.Sublist dms.allocs := by
  simp only [freeCode]
  split_ifs <;>
    first
      | exact ((mspaceFree_allocs_sublist _ _).trans
          ((mspaceFree_allocs_sublist _ _).trans (mspaceFree_allocs_sublist _ _)))
      | exact ((mspaceFree_allocs_sublist _ _).trans (mspaceFree_allocs_sublist _ _))
      | exact (mspaceFree_allocs_sublist _ _)
      | exact List.Sublist.refl _

theorem freeCode_snd_commons (hs : Nat) (e : CodeEntry) (cms dms : Mspace) :
    (freeCode hs e cms dms).snd.footprintLimit = dms.footprintLimit ∧
    (freeCode hs e cms dms).snd.nextAddr = dms.nextAddr := by
  simp only [freeCode]
  split_ifs <;> exact ⟨rfl, rfl⟩

theorem freeCode_gcMap_not_mem (hs : Nat) (e : CodeEntry) (cms dms : Mspace)
    (h : e.header.gcMapOffset ≠ 0) :
    e.codePtr - e.header.gcMapOffset ∉ allocAddrs (freeCode hs e cms dms).snd := by
  simp only [freeCode, if_pos h]
  split_ifs <;>
    first
      | exact not_mem_allocAddrs_of_sublist
          ((mspaceFree_allocs_sublist _ _).trans (mspaceFree_allocs_sublist _ _))
          (mspaceFree_self_not_mem _ _)
      | exact not_mem_allocAddrs_of_sublist (mspaceFree_allocs_sublist _ _)
          (mspaceFree_self_not_mem _ _)
      | exact mspaceFree_self_not_mem _ _

theorem freeCode_mappingTable_not_mem (hs : Nat) (e : CodeEntry) (cms dms : Mspace)
    (h : e.header.mappingTableOffset ≠ 0) :
    e.codePtr - e.header.mappingTableOffset ∉ allocAddrs (freeCode hs e cms dms).snd := by
  simp only [freeCode, if_pos h]
  split_ifs <;>
    first
      | exact not_mem_allocAddrs_of_sublist (mspaceFree_allocs_sublist _ _)
          (mspaceFree_self_not_mem _ _)
      | exact mspaceFree_self_not_mem _ _

theorem freeCode_vmapTable_not_mem (hs : Nat) (e : CodeEntry) (cms dms : Mspace)
    (h : e.header.vmapTableOffset ≠ 0) :
    e.codePtr - e.header.vmapTableOffset ∉ allocAddrs (freeCode hs e cms dms).snd := by
  simp only [freeCode, if_pos h]
  exact mspaceFree_self_not_mem _ _

theorem sweepEntries_mspaces (hs : Nat) (bs : List Nat) (l : List CodeEntry)
    (ms : Nat → MethodState) (cms dms : Mspace) :
    (sweepEntries hs bs l ms cms dms).snd.snd.fst.allocs.Sublist cms.allocs ∧
    (sweepEntries hs bs l ms cms dms).snd.snd.fst.footprintLimit = cms.footprintLimit ∧
    (sweepEntries hs bs l ms cms dms).snd.snd.fst.nextAddr = cms.nextAddr ∧
    (sweepEntries hs bs l ms cms dms).snd.snd.snd.allocs.Sublist dms.allocs ∧
    (sweepEntries hs bs l ms cms dms).snd.snd.snd.footprintLimit = dms.footprintLimit ∧
    (sweepEntries hs bs l ms cms dms).snd.snd.snd.nextAddr = dms.nextAddr := by
  induction l generalizing ms cms dms with
  | nil => exact ⟨List.Sublist.refl _, rfl, rfl, List.Sublist.refl _, rfl, rfl⟩
  | cons e tl ih =>
    simp only [sweepEntries]
    split
    · exact ih _ _ _
    · refine ⟨(ih _ _ _).1.trans (mspaceFree_allocs_sublist _ _), ?_, ?_,
        (ih _ _ _).2.2.2.1.trans (freeCode_snd_sublist _ _ _ _), ?_, ?_⟩
      · rw [(ih _ _ _).2.1, freeCode_fst]
        exact (mspaceFree_commons _ _).1
      · rw [(ih _ _ _).2.2.1, freeCode_fst]
        exact (mspaceFree_commons _ _).2
      · rw [(ih _ _ _).2.2.2.2.1]
        exact (freeCode_snd_commons _ _ _ _).1
      · rw [(ih _ _ _).2.2.2.2.2]
        exact (freeCode_snd_commons _ _ _ _).2

theorem sweepEntries_kept_subset (hs : Nat) (bs : List Nat) (l : List CodeEntry)
    (ms : Nat → MethodState) (cms dms : Mspace) :
    ∀ p ∈ (sweepEntries hs bs l ms cms dms).fst, p ∈ l := by
  induction l generalizing ms cms dms with
  | nil => intro p hp; exact absurd hp (by simp [sweepEntries])
  | cons e tl ih =>
    intro p hp
    simp only [sweepEntries] at hp
    by_cases hb : fromCodeToAllocation hs e.codePtr ∈ bs
    · rw [if_pos hb] at hp
      rcases List.mem_cons.mp hp with h | h
      · simp [h]
      · exact List.mem_cons_of_mem _ (ih _ _ _ _ h)
    · rw [if_neg hb] at hp
      exact List.mem_cons_of_mem _ (ih _ _ _ _ hp)

theorem sweepEntries_kept_of_live (hs : Nat) (bs : List Nat) (l : List CodeEntry)
    (ms : Nat → MethodState) (cms dms : Mspace) (e : CodeEntry)
    (he : e ∈ l) (hlive : fromCodeToAllocation hs e.codePtr ∈ bs) :
    e ∈ (sweepEntries hs bs l ms cms dms).fst := by
  induction l generalizing ms cms dms with
  | nil => exact absurd he (List.not_mem_nil e)
  | cons a tl ih =>
    simp only [sweepEntries]
    rcases List.mem_cons.mp he with h | h
    · subst h
      rw [if_pos hlive]
      exact List.mem_cons_self _ _
    · split
      · exact List.mem_cons_of_mem _ (ih _ _ _ h)
      · exact ih _ _ _ h

theorem sweepEntries_methods_untouched_aux (hs : Nat) (bs : List Nat)
    (l : List CodeEntry) (ms : Nat → MethodState) (cms dms : Mspace) (m : Nat)
    (hm : m ∉ l.map CodeEntry.method) :
    (sweepEntries hs bs l ms cms dms).snd.fst m = ms m := by
  induction l generalizing ms cms dms with
  | nil => rfl
  | cons e tl ih =>
    simp only [List.map_cons, List.mem_cons, not_or] at hm
    simp only [sweepEntries]
    split
    · rw [ih _ _ _ hm.2, setM_other _ _ _ _ hm.1]
    · rw [ih _ _ _ hm.2, setM_other _ _ _ _ hm.1]

theorem sweepEntries_live_entryPoint (hs : Nat) (bs : List Nat)
    (l : List CodeEntry) (ms : Nat → MethodState) (cms dms : Mspace)
    (e : CodeEntry) (hnd : (l.map CodeEntry.method).Nodup) (he : e ∈ l)
    (hlive : fromCodeToAllocation hs e.codePtr ∈ bs) :
    ((sweepEntries hs bs l ms cms dms).snd.fst e.method).entryPoint =
      headerEntryPoint e := by
  induction l generalizing ms cms dms with
  | nil => exact absurd he (List.not_mem_nil e)
  | cons a tl ih =>
    rw [List.map_cons, List.nodup_cons] at hnd
    rcases List.mem_cons.mp he with h | h
    · subst h
      simp only [sweepEntries, if_pos hlive]
      rw [sweepEntries_methods_untouched_aux hs bs tl _ cms dms e.method hnd.1,
        setM_same]
    · simp only [sweepEntries]
      split
      · exact ih _ _ _ hnd.2 h
      · exact ih _ _ _ hnd.2 h

theorem sweepEntries_dead_counter (hs : Nat) (bs : List Nat)
    (l : List CodeEntry) (ms : Nat → MethodState) (cms dms : Mspace)
    (e : CodeEntry) (hnd : (l.map CodeEntry.method).Nodup) (he : e ∈ l)
    (hdead : fromCodeToAllocation hs e.codePtr ∉ bs) :
    ((sweepEntries hs bs l ms cms dms).snd.fst e.method).counter = 0 := by
  induction l generalizing ms cms dms with
  | nil => exact absurd he (List.not_mem_nil e)
  | cons a tl ih =>
    rw [List.map_cons, List.nodup_cons] at hnd
    rcases List.mem_cons.mp he with h | h
    · subst h
      simp only [sweepEntries, if_neg hdead]
      rw [sweepEntries_methods_untouched_aux hs bs tl _ _ _ e.method hnd.1,
        setM_same]
    · simp only [sweepEntries]
      split
      · exact ih _ _ _ hnd.2 h
      · exact ih _ _ _ hnd.2 h

theorem sweepEntries_dead_removed (hs : Nat) (bs : List Nat)
    (l : List CodeEntry) (ms : Nat → MethodState) (cms dms : Mspace)
    (e : CodeEntry) (hnd : (l.map CodeEntry.codePtr).Nodup) (he : e ∈ l)
    (hdead : fromCodeToAllocation hs e.codePtr ∉ bs) :
    ∀ p ∈ (sweepEntries hs bs l ms cms dms).fst, p.codePtr ≠ e.codePtr := by
  induction l generalizing ms cms dms with
  | nil => exact absurd he (List.not_mem_nil e)
  | cons a tl ih =>
    rw [List.map_cons, List.nodup_cons] at hnd
    intro p hp
    rcases List.mem_cons.mp he with h | h
    · subst h
      simp only [sweepEntries, if_neg hdead] at hp
      have hmem := sweepEntries_kept_subset hs bs tl _ _ _ p hp
      intro hc
      exact hnd.1 (hc ▸ List.mem_map_of_mem CodeEntry.codePtr hmem)
    · simp only [sweepEntries] at hp
      by_cases hb : fromCodeToAllocation hs a.codePtr ∈ bs
      · rw [if_pos hb] at hp
        rcases List.mem_cons.mp hp with hpa | hpt
        · subst hpa
          intro hc
          exact hnd.1 (hc ▸ List.mem_map_of_mem CodeEntry.codePtr h)
        · exact ih _ _ _ hnd.2 h p hpt
      · rw [if_neg hb] at hp
        exact ih _ _ _ hnd.2 h p hp

theorem sweepEntries_dead_freed (hs : Nat) (bs : List Nat)
    (l : List CodeEntry) (ms : Nat → MethodState) (cms dms : Mspace)
    (e : CodeEntry) (he : e ∈ l)
    (hdead : fromCodeToAllocation hs e.codePtr ∉ bs) :
    fromCodeToAllocation hs e.codePtr ∉
      allocAddrs (sweepEntries hs bs l ms cms dms).snd.snd.fst ∧
    (e.header.gcMapOffset ≠ 0 → e.codePtr - e.header.gcMapOffset ∉
      allocAddrs (sweepEntries hs bs l ms cms dms).snd.snd.snd) ∧
    (e.header.mappingTableOffset ≠ 0 → e.codePtr - e.header.mappingTableOffset ∉
      allocAddrs (sweepEntries hs bs l ms cms dms).snd.snd.snd) ∧
    (e.header.vmapTableOffset ≠ 0 → e.codePtr - e.header.vmapTableOffset ∉
      allocAddrs (sweepEntries hs bs l ms cms dms).snd.snd.snd) := by
  induction l generalizing ms cms dms with
  | nil => exact absurd he (List.not_mem_nil e)
  | cons a tl ih =>
    rcases List.mem_cons.mp he with h | h
    · subst h
      simp only [sweepEntries, if_neg hdead]
      refine ⟨?_, ?_, ?_, ?_⟩
      · refine not_mem_allocAddrs_of_sublist (sweepEntries_mspaces hs bs tl _ _ _).1 ?_
        rw [freeCode_fst]
        exact mspaceFree_self_not_mem _ _
      · intro hoff
        exact not_mem_allocAddrs_of_sublist
          (sweepEntries_mspaces hs bs tl _ _ _).2.2.2.1
          (freeCode_gcMap_not_mem hs e cms dms hoff)
      · intro hoff
        exact not_mem_allocAddrs_of_sublist
          (sweepEntries_mspaces hs bs tl _ _ _).2.2.2.1
          (freeCode_mappingTable_not_mem hs e cms dms hoff)
      · intro hoff
        exact not_mem_allocAddrs_of_sublist
          (sweepEntries_mspaces hs bs tl _ _ _).2.2.2.1
          (freeCode_vmapTable_not_mem hs e cms dms hoff)
    · simp only [sweepEntries]
      split
      · exact ih _ _ _ h
      · exact ih _ _ _ h

theorem foldFree_commons (infos : List (Nat × Nat)) (dms : Mspace) :
    (infos.foldl (fun d p => mspaceFree d p.fst) dms).allocs.Sublist dms.allocs ∧
    (infos.foldl (fun d p => mspaceFree d p.fst) dms).footprintLimit =
      dms.footprintLimit ∧
    (infos.foldl (fun d p => mspaceFree d p.fst) dms).nextAddr = dms.nextAddr := by
  induction infos generalizing dms with
  | nil => exact ⟨List.Sublist.refl _, rfl, rfl⟩
  | cons p tl ih =>
    simp only [List.foldl_cons]
    refine ⟨(ih _).1.trans (mspaceFree_allocs_sublist _ _), ?_, ?_⟩
    · rw [(ih _).2.1]
      exact (mspaceFree_commons _ _).1
    · rw [(ih _).2.2]
      exact (mspaceFree_commons _ _).2

theorem foldFree_not_mem (infos : List (Nat × Nat)) (dms : Mspace) :
    ∀ p ∈ infos, p.fst ∉
      allocAddrs (infos.foldl (fun d q => mspaceFree d q.fst) dms) := by
  induction infos generalizing dms with
  | nil => intro p hp; exact absurd hp (List.not_mem_nil p)
  | cons a tl ih =>
    intro p hp
    simp only [List.foldl_cons]
    rcases List.mem_cons.mp hp with h | h
    · subst h
      exact not_mem_allocAddrs_of_sublist (foldFree_commons tl _).1
        (mspaceFree_self_not_mem _ _)
    · exact ih _ p h

theorem resetEntryPoints_cons (bridge : Nat) (a : CodeEntry)
    (tl : List CodeEntry) (ms : Nat → MethodState) :
    resetEntryPoints bridge (a :: tl) ms =
      resetEntryPoints bridge tl (setM ms a.method
        { entryPoint := bridge, counter := (ms a.method).counter,
          profilingInfo := (ms a.method).profilingInfo }) := rfl

theorem detachProfiling_cons (a : Nat × Nat) (tl : List (Nat × Nat))
    (ms : Nat → MethodState) :
    detachProfiling (a :: tl) ms =
      detachProfiling tl (setM ms a.snd
        { entryPoint := (ms a.snd).entryPoint, counter := (ms a.snd).counter,
          profilingInfo := none }) := rfl

theorem resetEntryPoints_or (bridge : Nat) (l : List CodeEntry)
    (ms : Nat → MethodState) (m : Nat) :
    ((resetEntryPoints bridge l ms) m).entryPoint = bridge ∨
    (resetEntryPoints bridge l ms) m = ms m := by
  induction l generalizing ms with
  | nil => exact Or.inr rfl
  | cons a tl ih =>
    rw [resetEntryPoints_cons]
    rcases ih (setM ms a.method
        { entryPoint := bridge, counter := (ms a.method).counter,
          profilingInfo := (ms a.method).profilingInfo }) with h | h
    · exact Or.inl h
    · rw [h]
      by_cases hm : m = a.method
      · subst hm
        rw [setM_same]
        exact Or.inl rfl
      · rw [setM_other _ _ _ _ hm]
        exact Or.inr rfl

theorem resetEntryPoints_mem (bridge : Nat) (l : List CodeEntry)
    (ms : Nat → MethodState) (m : Nat) (hm : m ∈ l.map CodeEntry.method) :
    ((resetEntryPoints bridge l ms) m).entryPoint = bridge := by
  induction l generalizing ms with
  | nil => exact absurd hm (List.not_mem_nil m)
  | cons a tl ih =>
    rw [resetEntryPoints_cons]
    rcases List.mem_cons.mp hm with h | h
    · rcases resetEntryPoints_or bridge tl
        (setM ms a.method
          { entryPoint := bridge, counter := (ms a.method).counter,
            profilingInfo := (ms a.method).profilingInfo }) m with h2 | h2
      · exact h2
      · rw [h2, h, setM_same]
    · exact ih _ (by simpa using h)

theorem detachProfiling_entryPoint (l : List (Nat × Nat))
    (ms : Nat → MethodState) (m : Nat) :
    ((detachProfiling l ms) m).entryPoint = (ms m).entryPoint := by
  induction l generalizing ms with
  | nil => rfl
  | cons a tl ih =>
    rw [detachProfiling_cons, ih]
    by_cases hm : m = a.snd
    · subst hm
      rw [setM_same]
    · rw [setM_other _ _ _ _ hm]

theorem detachProfiling_or (l : List (Nat × Nat))
    (ms : Nat → MethodState) (m : Nat) :
    ((detachProfiling l ms) m).profilingInfo = none ∨
    (detachProfiling l ms) m = ms m := by
  induction l generalizing ms with
  | nil => exact Or.inr rfl
  | cons a tl ih =>
    rw [detachProfiling_cons]
    rcases ih (setM ms a.snd
        { entryPoint := (ms a.snd).entryPoint, counter := (ms a.snd).counter,
          profilingInfo := none }) with h | h
    · exact Or.inl h
    · rw [h]
      by_cases hm : m = a.snd
      · subst hm
        rw [setM_same]
        exact Or.inl rfl
      · rw [setM_other _ _ _ _ hm]
        exact Or.inr rfl

theorem detachProfiling_mem (l : List (Nat × Nat))
    (ms : Nat → MethodState) (m : Nat) (hm : m ∈ l.map Prod.snd) :
    ((detachProfiling l ms) m).profilingInfo = none := by
  induction l generalizing ms with
  | nil => exact absurd hm (List.not_mem_nil m)
  | cons a tl ih =>
    rw [detachProfiling_cons]
    rcases List.mem_cons.mp hm with h | h
    · rcases detachProfiling_or tl
        (setM ms a.snd
          { entryPoint := (ms a.snd).entryPoint, counter := (ms a.snd).counter,
            profilingInfo := none }) m with h2 | h2
      · exact h2
      · rw [h2, h, setM_same]
    · exact ih _ (by simpa using h)

theorem collectPhase_fields (marked : List Nat) (st : CacheState) :
    (collectPhase marked st).headerSize = st.headerSize ∧
    (collectPhase marked st).ptrSize = st.ptrSize ∧
    (collectPhase marked st).maxCapacity = st.maxCapacity ∧
    (collectPhase marked st).currentCapacity = st.currentCapacity ∧
    (collectPhase marked st).hasDoneOneCollection = true ∧
    (collectPhase marked st).collectionInProgress = false ∧
    (collectPhase marked st).gcCount = st.gcCount ∧
    (collectPhase marked st).liveBitmap = none ∧
    (collectPhase marked st).profilingInfos = [] ∧
    (collectPhase marked st).codeMspace.footprintLimit =
      st.codeMspace.footprintLimit ∧
    (collectPhase marked st).dataMspace.footprintLimit =
      st.dataMspace.footprintLimit := by
  refine ⟨rfl, rfl, rfl, rfl, rfl, rfl, rfl, rfl, rfl, ?_, ?_⟩
  · exact (sweepEntries_mspaces _ _ _ _ _ _).2.1
  · exact ((foldFree_commons _ _).2.1).trans
      (sweepEntries_mspaces _ _ _ _ _ _).2.2.2.2.1

theorem collectPhase_mspace_sublists (marked : List Nat) (st : CacheState) :
    (collectPhase marked st).codeMspace.allocs.Sublist st.codeMspace.allocs ∧
    (collectPhase marked st).dataMspace.allocs.Sublist st.dataMspace.allocs := by
  constructor
  · exact (sweepEntries_mspaces _ _ _ _ _ _).1
  · exact ((foldFree_commons _ _).1.trans
      (sweepEntries_mspaces _ _ _ _ _ _).2.2.2.1)

theorem garbageCollectCache_fresh (marked : List Nat) (st : CacheState)
    (h : st.hasDoneOneCollection = false) :
    garbageCollectCache marked st = collectPhase marked (gcStart st) := by
  have hcond : ¬((gcStart st).hasDoneOneCollection = true) := by
    show ¬(st.hasDoneOneCollection = true)
    rw [h]
    simp
  simp only [garbageCollectCache, if_neg hcond]

theorem garbageCollectCache_atMax (marked : List Nat) (st : CacheState)
    (h1 : st.hasDoneOneCollection = true)
    (h2 : st.currentCapacity = st.maxCapacity) :
    garbageCollectCache marked st = collectPhase marked (gcStart st) := by
  have h1' : (gcStart st).hasDoneOneCollection = true := h1
  have h2' : (gcStart st).currentCapacity = (gcStart st).maxCapacity := h2
  simp only [garbageCollectCache, h1', increaseCodeCacheCapacity, if_pos h2',
    if_true, Bool.false_eq_true, if_false]

theorem garbageCollectCache_growth (marked : List Nat) (st : CacheState)
    (h1 : st.hasDoneOneCollection = true)
    (h2 : st.currentCapacity ≠ st.maxCapacity) :
    (garbageCollectCache marked st).currentCapacity = grownCapacity st ∧
    (garbageCollectCache marked st).maxCapacity = st.maxCapacity ∧
    (garbageCollectCache marked st).hasDoneOneCollection = false ∧
    (garbageCollectCache marked st).collectionInProgress = false ∧
    (garbageCollectCache marked st).gcCount = st.gcCount + 1 ∧
    (garbageCollectCache marked st).liveBitmap = st.liveBitmap ∧
    (garbageCollectCache marked st).methodCodeMap = st.methodCodeMap ∧
    (garbageCollectCache marked st).methods = st.methods ∧
    (garbageCollectCache marked st).profilingInfos = st.profilingInfos ∧
    (garbageCollectCache marked st).codeMspace.allocs = st.codeMspace.allocs ∧
    (garbageCollectCache marked st).dataMspace.allocs = st.dataMspace.allocs ∧
    (garbageCollectCache marked st).codeMspace.footprintLimit =
      grownCapacity st / 2 ∧
    (garbageCollectCache marked st).dataMspace.footprintLimit =
      grownCapacity st / 2 := by
  have hne : (gcStart st).currentCapacity ≠ (gcStart st).maxCapacity := h2
  have h1' : (gcStart st).hasDoneOneCollection = true := h1
  simp only [garbageCollectCache, h1', increaseCodeCacheCapacity, if_neg hne,
    if_true]
  refine ⟨?_, ?_, ?_, ?_, ?_, ?_, ?_, ?_, ?_, ?_, ?_, ?_, ?_⟩ <;>
    first
      | rfl
      | trivial

theorem grownCapacity_ge (st : CacheState)
    (hle : st.currentCapacity ≤ st.maxCapacity) :
    st.currentCapacity ≤ grownCapacity st := by
  simp only [grownCapacity]
  split_ifs <;> omega

theorem grownCapacity_le_max (st : CacheState) :
    grownCapacity st ≤ st.maxCapacity := by
  simp only [grownCapacity]
  split_ifs <;> omega

theorem grownCapacity_even (st : CacheState)
    (hc : st.currentCapacity % 2 = 0) (hm : st.maxCapacity % 2 = 0) :
    grownCapacity st % 2 = 0 := by
  have hMB : MB % 2 = 0 := rfl
  simp only [grownCapacity]
  split_ifs <;> omega

theorem roundDown_le (x n : Nat) : roundDown x n ≤ x := by
  unfold roundDown
  omega

theorem createdState_fields (hs ps pis ics bridge ic mc : Nat) :
    (createdState hs ps pis ics bridge ic mc).currentCapacity =
      roundDown ic (2 * kPageSize) ∧
    (createdState hs ps pis ics bridge ic mc).maxCapacity =
      roundDown mc (2 * kPageSize) ∧
    (createdState hs ps pis ics bridge ic mc).codeMspace.footprintLimit =
      roundDown ic (2 * kPageSize) / 2 ∧
    (createdState hs ps pis ics bridge ic mc).dataMspace.footprintLimit =
      roundDown ic (2 * kPageSize) / 2 ∧
    (createdState hs ps pis ics bridge ic mc).codeMspace.allocs = [] ∧
    (createdState hs ps pis ics bridge ic mc).dataMspace.allocs = [] ∧
    (createdState hs ps pis ics bridge ic mc).hasDoneOneCollection = false ∧
    (createdState hs ps pis ics bridge ic mc).methodCodeMap = [] ∧
    (createdState hs ps pis ics bridge ic mc).profilingInfos = [] := by
  have h : roundDown ic (2 * kPageSize) / 2 +
      roundDown ic (2 * kPageSize) / 2 = roundDown ic (2 * kPageSize) := by
    have h1 := roundDown_eq_mul_div ic (2 * kPageSize)
    unfold kPageSize at *
    omega
  refine ⟨?_, rfl, ?_, ?_, rfl, rfl, rfl, rfl, rfl⟩
  · show roundDown ic (2 * kPageSize) -
      roundDown ic (2 * kPageSize) / 2 + roundDown ic (2 * kPageSize) / 2 = _
    omega
  · show (_ - _ + _) / 2 = _
    omega
  · show (_ - _ + _) / 2 = _
    omega

theorem roundDown_twoPage_even (x : Nat) : roundDown x (2 * kPageSize) % 2 = 0 := by
  rw [roundDown_eq_mul_div, Nat.mul_assoc]
  exact Nat.mul_mod_right 2 _

theorem createdState_capInv (hs ps pis ics bridge ic mc : Nat) (hic : ic ≤ mc) :
    CapInv (createdState hs ps pis ics bridge ic mc) := by
  obtain ⟨h1, h2, h3, h4, h5, h6, _, _, _⟩ :=
    createdState_fields hs ps pis ics bridge ic mc
  have hmono := roundDown_mono (2 * kPageSize) hic
  refine ⟨?_, ?_, ?_, ?_, ?_, ?_, ?_⟩
  · unfold bytesInUse
    rw [h5]
    exact Nat.zero_le _
  · unfold bytesInUse
    rw [h6]
    exact Nat.zero_le _
  · rw [h3, h1]
  · rw [h4, h1]
  · rw [h1]
    exact roundDown_twoPage_even ic
  · rw [h2]
    exact roundDown_twoPage_even mc
  · rw [h1, h2]
    exact hmono

/-- C9: cache construction fails without creating a cache — returning the
error `Except.error` with a named message — whenever the requested max
capacity exceeds the code's 1 GB cap or either platform mapping call fails;
when none of these happen, construction fully succeeds, yielding a single
well-formed empty cache (so construction never partially succeeds). -/
theorem create_failure_and_success (hs ps pis ics bridge ic mc : Nat)
    (mapOk remapOk : Bool) (hic : ic ≤ mc) :
    (mc > 1 * GB →
      create hs ps pis ics bridge ic mc mapOk remapOk =
        Except.error "Maxium code cache capacity is limited to 1 GB") ∧
    (¬ mc > 1 * GB → (mapOk = false ∨ remapOk = false) →
      create hs ps pis ics bridge ic mc mapOk remapOk =
        Except.error "Failed to create read write execute cache") ∧
    (¬ mc > 1 * GB → mapOk = true → remapOk = true →
      create hs ps pis ics bridge ic mc mapOk remapOk =
        Except.ok (createdState hs ps pis ics bridge ic mc) ∧
      CapInv (createdState hs ps pis ics bridge ic mc) ∧
      (createdState hs ps pis ics bridge ic mc).methodCodeMap = [] ∧
      (createdState hs ps pis ics bridge ic mc).profilingInfos = [] ∧
      codeCacheSize (createdState hs ps pis ics bridge ic mc) = 0 ∧
      dataCacheSize (createdState hs ps pis ics bridge ic mc) = 0 ∧
      (createdState hs ps pis ics bridge ic mc).maxCapacity ≤ 1 * GB) := by
  obtain ⟨f1, f2, f3, f4, f5, f6, f7, f8, f9⟩ :=
    createdState_fields hs ps pis ics bridge ic mc
  refine ⟨?_, ?_, ?_⟩
  · intro h
    unfold create
    rw [if_pos h]
  · intro h hmaps
    unfold create
    rcases hmaps with hm | hr
    · rw [if_neg h, if_pos hm]
    · by_cases hmo : mapOk = false
      · rw [if_neg h, if_pos hmo]
      · rw [if_neg h, if_neg hmo, if_pos hr]
  · intro h h1 h2
    refine ⟨by unfold create; rw [if_neg h, if_neg (by simp [h1]), if_neg (by simp [h2])],
      createdState_capInv hs ps pis ics bridge ic mc hic, f8, f9, ?_, ?_, ?_⟩
    · unfold codeCacheSize bytesInUse
      rw [f5]
      rfl
    · unfold dataCacheSize bytesInUse
      rw [f6]
      rfl
    · rw [f2]
      exact Nat.le_trans (roundDown_le mc (2 * kPageSize)) (by omega)

/-- Witness for C9 at a concrete construction: header size 64, pointer size
8, record sizes 64/16, bridge 7, initial capacity 8 KiB, max 16 KiB. -/
theorem create_failure_and_success_witness :
    (16384 > 1 * GB →
      create 64 8 64 16 7 8192 16384 true true =
        Except.error "Maxium code cache capacity is limited to 1 GB") ∧
    (¬ 16384 > 1 * GB → (true = false ∨ true = false) →
      create 64 8 64 16 7 8192 16384 true true =
        Except.error "Failed to create read write execute cache") ∧
    (¬ 16384 > 1 * GB → true = true → true = true →
      create 64 8 64 16 7 8192 16384 true true =
        Except.ok (createdState 64 8 64 16 7 8192 16384) ∧
      CapInv (createdState 64 8 64 16 7 8192 16384) ∧
      (createdState 64 8 64 16 7 8192 16384).methodCodeMap = [] ∧
      (createdState 64 8 64 16 7 8192 16384).profilingInfos = [] ∧
      codeCacheSize (createdState 64 8 64 16 7 8192 16384) = 0 ∧
      dataCacheSize (createdState 64 8 64 16 7 8192 16384) = 0 ∧
      (createdState 64 8 64 16 7 8192 16384).maxCapacity ≤ 1 * GB) :=
  create_failure_and_success 64 8 64 16 7 8192 16384 true true (by decide)

/-- C2 counterexample: a freshly constructed cache
(`has_done_one_collection_ = false`) under capacity pressure (a data
reservation that the allocator cannot satisfy triggers the collector).  The
claim says the first cycle grows capacity because room remains
(8 KiB < 16 KiB); but the source guards growth with
`has_done_one_collection_ && IncreaseCodeCacheCapacity()`, so the first cycle
runs a full collection instead: exactly one cycle runs, capacity stays 8 KiB,
and the first-collection flag is set — growth would only happen on a later
cycle. -/
theorem growth_before_collect_cex :
    exFresh.hasDoneOneCollection = false ∧
    exFresh.currentCapacity = 8192 ∧
    exFresh.maxCapacity = 16384 ∧
    (reserveData 100000 [] exFresh).fst = none ∧
    (reserveData 100000 [] exFresh).snd.gcCount = 1 ∧
    (reserveData 100000 [] exFresh).snd.currentCapacity = 8192 ∧
    (reserveData 100000 [] exFresh).snd.hasDoneOneCollection = true := by
  decide

/-- C2 (amended): on a fresh cache (`has_done_one_collection = false`) the
first collector cycle performs a full collection — capacity unchanged,
profiling reset, flag set — even under pressure with room to grow; growth
happens on the following cycle instead: a second cycle with capacity still
below max grows (no sweep: the catalog is untouched and the flag is cleared),
and a second cycle with no room left to grow sweeps. -/
theorem growth_after_first_collection (st : CacheState)
    (marked marked2 : List Nat) (hfresh : st.hasDoneOneCollection = false) :
    (garbageCollectCache marked st).currentCapacity = st.currentCapacity ∧
    (garbageCollectCache marked st).hasDoneOneCollection = true ∧
    (garbageCollectCache marked st).profilingInfos = [] ∧
    ((garbageCollectCache marked st).currentCapacity <
        (garbageCollectCache marked st).maxCapacity →
      (garbageCollectCache marked2
          (garbageCollectCache marked st)).hasDoneOneCollection = false ∧
      (garbageCollectCache marked2 (garbageCollectCache marked st)).currentCapacity =
        grownCapacity (garbageCollectCache marked st) ∧
      (garbageCollectCache marked2 (garbageCollectCache marked st)).methodCodeMap =
        (garbageCollectCache marked st).methodCodeMap ∧
      (garbageCollectCache marked2 (garbageCollectCache marked st)).profilingInfos =
        (garbageCollectCache marked st).profilingInfos) ∧
    ((garbageCollectCache marked st).currentCapacity =
        (garbageCollectCache marked st).maxCapacity →
      (garbageCollectCache marked2 (garbageCollectCache marked st)).currentCapacity =
        (garbageCollectCache marked st).currentCapacity ∧
      (garbageCollectCache marked2
          (garbageCollectCache marked st)).hasDoneOneCollection = true) := by
  rw [garbageCollectCache_fresh marked st hfresh]
  obtain ⟨_, _, _, c4, c5, c6, c7, c8, c9, c10, c11⟩ :=
    collectPhase_fields marked (gcStart st)
  refine ⟨c4, c5, c9, ?_, ?_⟩
  · intro hlt
    obtain ⟨g1, g2, g3, g4, g5, g6, g7, g8, g9, g10, g11, g12, g13⟩ :=
      garbageCollectCache_growth marked2 _ c5 (Nat.ne_of_lt hlt)
    exact ⟨g3, g1, g7, g9⟩
  · intro heq
    rw [garbageCollectCache_atMax marked2 _ c5 heq]
    obtain ⟨_, _, _, d4, d5, _, _, _, _, _, _⟩ := collectPhase_fields marked2 _
    exact ⟨d4, d5⟩

/-- Witness for the amended C2 on the concrete fresh cache. -/
theorem growth_after_first_collection_witness :
    (garbageCollectCache [] exFresh).currentCapacity = exFresh.currentCapacity ∧
    (garbageCollectCache [] exFresh).hasDoneOneCollection = true ∧
    (garbageCollectCache [] exFresh).profilingInfos = [] ∧
    ((garbageCollectCache [] exFresh).currentCapacity <
        (garbageCollectCache [] exFresh).maxCapacity →
      (garbageCollectCache []
          (garbageCollectCache [] exFresh)).hasDoneOneCollection = false ∧
      (garbageCollectCache [] (garbageCollectCache [] exFresh)).currentCapacity =
        grownCapacity (garbageCollectCache [] exFresh) ∧
      (garbageCollectCache [] (garbageCollectCache [] exFresh)).methodCodeMap =
        (garbageCollectCache [] exFresh).methodCodeMap ∧
      (garbageCollectCache [] (garbageCollectCache [] exFresh)).profilingInfos =
        (garbageCollectCache [] exFresh).profilingInfos) ∧
    ((garbageCollectCache [] exFresh).currentCapacity =
        (garbageCollectCache [] exFresh).maxCapacity →
      (garbageCollectCache [] (garbageCollectCache [] exFresh)).currentCapacity =
        (garbageCollectCache [] exFresh).currentCapacity ∧
      (garbageCollectCache []
          (garbageCollectCache [] exFresh)).hasDoneOneCollection = true) :=
  growth_after_first_collection exFresh [] [] (by decide)

/-- C8: when the collector takes the growth shortcut (the first-collection
flag is set and capacity is below max), it skips marking and sweeping — the
catalog, both mspaces' allocations, the methods and the profiling list are
untouched and no bitmap is created — and instead doubles the capacity below
1 MB or adds 1 MB at or above it, clamps to max, clears the flag, and
re-applies the footprint limit as half to each sub-region. -/
theorem growth_shortcut (st : CacheState) (marked : List Nat)
    (h1 : st.hasDoneOneCollection = true)
    (h2 : st.currentCapacity < st.maxCapacity) :
    (st.currentCapacity < MB →
      (garbageCollectCache marked st).currentCapacity =
        min (st.currentCapacity * 2) st.maxCapacity) ∧
    (MB ≤ st.currentCapacity →
      (garbageCollectCache marked st).currentCapacity =
        min (st.currentCapacity + MB) st.maxCapacity) ∧
    (garbageCollectCache marked st).codeMspace.footprintLimit =
      (garbageCollectCache marked st).currentCapacity / 2 ∧
    (garbageCollectCache marked st).dataMspace.footprintLimit =
      (garbageCollectCache marked st).currentCapacity / 2 ∧
    (garbageCollectCache marked st).methodCodeMap = st.methodCodeMap ∧
    (garbageCollectCache marked st).codeMspace.allocs = st.codeMspace.allocs ∧
    (garbageCollectCache marked st).dataMspace.allocs = st.dataMspace.allocs ∧
    (garbageCollectCache marked st).profilingInfos = st.profilingInfos ∧
    (garbageCollectCache marked st).methods = st.methods ∧
    (garbageCollectCache marked st).liveBitmap = st.liveBitmap ∧
    (garbageCollectCache marked st).hasDoneOneCollection = false := by
  obtain ⟨g1, g2, g3, g4, g5, g6, g7, g8, g9, g10, g11, g12, g13⟩ :=
    garbageCollectCache_growth marked st h1 (Nat.ne_of_lt h2)
  refine ⟨?_, ?_, ?_, ?_, g7, g10, g11, g9, g8, g6, g3⟩
  · intro hlt
    rw [g1]
    simp only [grownCapacity, if_pos hlt]
    split_ifs <;> omega
  · intro hge
    rw [g1]
    simp only [grownCapacity, if_neg (Nat.not_lt.mpr hge)]
    split_ifs <;> omega
  · rw [g12, g1]
  · rw [g13, g1]

/-- Witness for C8 on the concrete cache after its first collection (flag
set, capacity 8 KiB below max 16 KiB). -/
theorem growth_shortcut_witness :
    ((garbageCollectCache [] exFresh).currentCapacity < MB →
      (garbageCollectCache [] (garbageCollectCache [] exFresh)).currentCapacity =
        min ((garbageCollectCache [] exFresh).currentCapacity * 2)
          (garbageCollectCache [] exFresh).maxCapacity) ∧
    (MB ≤ (garbageCollectCache [] exFresh).currentCapacity →
      (garbageCollectCache [] (garbageCollectCache [] exFresh)).currentCapacity =
        min ((garbageCollectCache [] exFresh).currentCapacity + MB)
          (garbageCollectCache [] exFresh).maxCapacity) ∧
    (garbageCollectCache [] (garbageCollectCache [] exFresh)).codeMspace.footprintLimit =
      (garbageCollectCache [] (garbageCollectCache [] exFresh)).currentCapacity / 2 ∧
    (garbageCollectCache [] (garbageCollectCache [] exFresh)).dataMspace.footprintLimit =
      (garbageCollectCache [] (garbageCollectCache [] exFresh)).currentCapacity / 2 ∧
    (garbageCollectCache [] (garbageCollectCache [] exFresh)).methodCodeMap =
      (garbageCollectCache [] exFresh).methodCodeMap ∧
    (garbageCollectCache [] (garbageCollectCache [] exFresh)).codeMspace.allocs =
      (garbageCollectCache [] exFresh).codeMspace.allocs ∧
    (garbageCollectCache [] (garbageCollectCache [] exFresh)).dataMspace.allocs =
      (garbageCollectCache [] exFresh).dataMspace.allocs ∧
    (garbageCollectCache [] (garbageCollectCache [] exFresh)).profilingInfos =
      (garbageCollectCache [] exFresh).profilingInfos ∧
    (garbageCollectCache [] (garbageCollectCache [] exFresh)).methods =
      (garbageCollectCache [] exFresh).methods ∧
    (garbageCollectCache [] (garbageCollectCache [] exFresh)).liveBitmap =
      (garbageCollectCache [] exFresh).liveBitmap ∧
    (garbageCollectCache []
        (garbageCollectCache [] exFresh)).hasDoneOneCollection = false :=
  growth_shortcut (garbageCollectCache [] exFresh) [] (by decide) (by decide)

theorem filter_getLast_eq_greatest (l : List CodeEntry) (pc : Nat)
    (e : CodeEntry)
    (hsorted : l.Pairwise (fun a b => a.codePtr < b.codePtr))
    (he : e ∈ l) (hlt : e.codePtr < pc)
    (hgreat : ∀ p ∈ l, p.codePtr < pc → p.codePtr ≤ e.codePtr) :
    (l.filter (fun p => decide (p.codePtr < pc))).getLast? = some e := by
  induction l with
  | nil => exact absurd he (List.not_mem_nil e)
  | cons a tl ih =>
    rw [List.pairwise_cons] at hsorted
    rcases List.mem_cons.mp he with h | h
    · subst h
      have hempty : tl.filter (fun p => decide (p.codePtr < pc)) = [] := by
        rw [List.filter_eq_nil_iff]
        intro p hp
        simp only [decide_eq_true_eq]
        intro hplt
        exact absurd (hgreat p (List.mem_cons_of_mem e hp) hplt)
          (Nat.not_le.mpr (hsorted.1 p hp))
      rw [List.filter_cons_of_pos (by simpa using hlt), hempty]
      rfl
    · have halt : a.codePtr < pc := Nat.lt_trans (hsorted.1 e h) hlt
      rw [List.filter_cons_of_pos (by simpa using halt)]
      have hmemf : e ∈ tl.filter (fun p => decide (p.codePtr < pc)) :=
        List.mem_filter.mpr ⟨h, by simpa using hlt⟩
      have hne : tl.filter (fun p => decide (p.codePtr < pc)) ≠ [] := by
        intro hnil
        rw [hnil] at hmemf
        exact List.not_mem_nil e hmemf
      obtain ⟨x, xs, hxs⟩ := List.exists_cons_of_ne_nil hne
      rw [hxs, List.getLast?_cons_cons, ← hxs]
      exact ih hsorted.2 h
        (fun p hp hplt => hgreat p (List.mem_cons_of_mem a hp) hplt)

/-- C4 counterexample: in a catalog holding entries starting at 100 and 200
(each of length 10), looking up the program counter 200 — which is exactly
the start address of the second entry and inside its recorded length — yields
null: `lower_bound(pc)` followed by the unconditional decrement lands on the
preceding entry (start 100), whose range check fails.  The claim requires the
entry with the greatest start address less than or equal to P — here the
entry at 200 itself — to be found. -/
theorem lookup_at_start_cex :
    (∃ e, e ∈ exLookup.methodCodeMap ∧ e.codePtr = 200 ∧
      headerContains e 200 = true) ∧
    containsPc exLookup 200 = true ∧
    lookupMethodHeader exLookup 200 = none := by
  decide

/-- C4 (amended): for a program counter inside the code sub-region and a
sorted catalog, the lookup resolves `pc` through the entry `e` with the
greatest start address strictly below `pc` (not `≤ pc`: an entry whose start
address equals `pc` is skipped), and returns `e`'s header exactly when `pc`
falls within `e`'s recorded code length, null otherwise. -/
theorem lookup_resolves_strictly_below (st : CacheState) (pc : Nat)
    (e : CodeEntry)
    (hsorted : st.methodCodeMap.Pairwise (fun a b => a.codePtr < b.codePtr))
    (hpc : containsPc st pc = true)
    (he : e ∈ st.methodCodeMap) (hlt : e.codePtr < pc)
    (hgreat : ∀ p ∈ st.methodCodeMap, p.codePtr < pc → p.codePtr ≤ e.codePtr) :
    lookupMethodHeader st pc =
      (if headerContains e pc then some e.header else none) := by
  unfold lookupMethodHeader
  rw [if_neg (by rw [hpc]; exact fun h => Bool.noConfusion h)]
  rw [if_neg (by rw [List.isEmpty_eq_false_iff_exists_mem.mpr ⟨e, he⟩]; exact fun h => Bool.noConfusion h)]
  rw [filter_getLast_eq_greatest st.methodCodeMap pc e hsorted he hlt hgreat]

/-- Witness for the amended C4: pc 205 sits inside the entry starting at 200,
which is the greatest start address strictly below 205. -/
theorem lookup_resolves_strictly_below_witness :
    lookupMethodHeader exLookup 205 =
      (if headerContains exEntry200 205 then some exEntry200.header else none) :=
  lookup_resolves_strictly_below exLookup 205 exEntry200 (by decide) (by decide)
    (by decide) (by decide) (by decide)

theorem addProfilingInfoInternal_existing (st : CacheState) (m el i : Nat)
    (h : (st.methods m).profilingInfo = some i) :
    addProfilingInfoInternal m el st = (some i, st) := by
  unfold addProfilingInfoInternal
  rw [h]

theorem addProfilingInfoInternal_success_attached (st : CacheState)
    (m el r : Nat) (st1 : CacheState)
    (h : addProfilingInfoInternal m el st = (some r, st1)) :
    (st1.methods m).profilingInfo = some r := by
  unfold addProfilingInfoInternal at h
  cases hpi : (st.methods m).profilingInfo with
  | some i =>
    rw [hpi] at h
    have h1 : some i = some r := congrArg Prod.fst h
    have h2 : st = st1 := congrArg Prod.snd h
    rw [← h2, hpi]
    exact h1
  | none =>
    rw [hpi] at h
    cases halloc : mspaceAlloc st.dataMspace
        (roundUp (st.piSize + st.icSize * el) st.ptrSize) with
    | none =>
      rw [halloc] at h
      have h1 : (none : Option Nat) = some r := congrArg Prod.fst h
      exact absurd h1 (by simp)
    | some p =>
      obtain ⟨data, dms⟩ := p
      rw [halloc] at h
      have h1 : some data = some r := congrArg Prod.fst h
      have h2 : setM st.methods m
          { entryPoint := (st.methods m).entryPoint,
            counter := (st.methods m).counter,
            profilingInfo := some data } = st1.methods :=
        congrArg (fun q : Option Nat × CacheState => q.snd.methods) h
      rw [← h2, setM_same]
      exact h1

theorem addProfilingInfo_success_attached (st : CacheState) (m el : Nat)
    (retryA : Bool) (marked : List Nat) (r : Nat) (st1 : CacheState)
    (h : addProfilingInfo m el retryA marked st = (some r, st1)) :
    (st1.methods m).profilingInfo = some r := by
  unfold addProfilingInfo at h
  cases hint : addProfilingInfoInternal m el st with
  | mk fst snd =>
    rw [hint] at h
    cases fst with
    | some i =>
      have h1 : some i = some r := congrArg Prod.fst h
      have h2 : snd = st1 := congrArg Prod.snd h
      injection h1 with h1
      subst h1
      subst h2
      exact addProfilingInfoInternal_success_attached st m el i snd hint
    | none =>
      cases retryA with
      | true =>
        have h' : addProfilingInfoInternal m el
            (garbageCollectCache marked snd) = (some r, st1) := h
        exact addProfilingInfoInternal_success_attached _ m el r st1 h'
      | false =>
        have h' : ((none : Option Nat), snd) = (some r, st1) := h
        have h1 : (none : Option Nat) = some r := congrArg Prod.fst h'
        exact absurd h1 (by simp)

/-- C7: `AddProfilingInfo` is idempotent per method: a successful call leaves
the method's record attached, and a second call — with either retry flag and
any marking — returns the very same record with the state unchanged (the
internal allocation path is not reached); moreover whenever a record is
already attached, the internal call returns it unchanged and allocates
nothing. -/
theorem addProfilingInfo_idempotent (st : CacheState) (m el : Nat)
    (retryA retryA2 : Bool) (marked marked2 : List Nat) (r : Nat)
    (st1 : CacheState)
    (h : addProfilingInfo m el retryA marked st = (some r, st1)) :
    addProfilingInfoInternal m el st1 = (some r, st1) ∧
    addProfilingInfo m el retryA2 marked2 st1 = (some r, st1) ∧
    (∀ i, (st.methods m).profilingInfo = some i →
      addProfilingInfoInternal m el st = (some i, st)) := by
  have hat := addProfilingInfo_success_attached st m el retryA marked r st1 h
  have h1 : addProfilingInfoInternal m el st1 = (some r, st1) :=
    addProfilingInfoInternal_existing st1 m el r hat
  refine ⟨h1, ?_, fun i hi => addProfilingInfoInternal_existing st m el i hi⟩
  unfold addProfilingInfo
  rw [h1]

/-- Witness for C7: on the concrete fresh cache, attaching a profiling record
to method 5 (two inline-cache entries) succeeds with the record at data
address 0; a repeat call returns the same record and state. -/
theorem addProfilingInfo_idempotent_witness :
    addProfilingInfoInternal 5 2 (addProfilingInfo 5 2 true [] exFresh).snd =
      (some 0, (addProfilingInfo 5 2 true [] exFresh).snd) ∧
    addProfilingInfo 5 2 true [] (addProfilingInfo 5 2 true [] exFresh).snd =
      (some 0, (addProfilingInfo 5 2 true [] exFresh).snd) ∧
    (∀ i, (exFresh.methods 5).profilingInfo = some i →
      addProfilingInfoInternal 5 2 exFresh = (some i, exFresh)) :=
  addProfilingInfo_idempotent exFresh 5 2 true true [] [] 0
    (addProfilingInfo 5 2 true [] exFresh).snd rfl

theorem garbageCollectCache_gcCount (marked : List Nat) (st : CacheState) :
    (garbageCollectCache marked st).gcCount = st.gcCount + 1 := by
  by_cases h : st.hasDoneOneCollection = true
  · by_cases hg : st.currentCapacity = st.maxCapacity
    · rw [garbageCollectCache_atMax marked st h hg]
      exact (collectPhase_fields marked _).2.2.2.2.2.2.1
    · exact (garbageCollectCache_growth marked st h hg).2.2.2.2.1
  · rw [garbageCollectCache_fresh marked st (by simpa using h)]
    exact (collectPhase_fields marked _).2.2.2.2.2.2.1

theorem garbageCollectCache_capacity_atMax (marked : List Nat)
    (st : CacheState) (hcap : st.currentCapacity = st.maxCapacity) :
    (garbageCollectCache marked st).currentCapacity = st.currentCapacity := by
  by_cases h : st.hasDoneOneCollection = true
  · rw [garbageCollectCache_atMax marked st h hcap]
    exact (collectPhase_fields marked _).2.2.2.1
  · rw [garbageCollectCache_fresh marked st (by simpa using h)]
    exact (collectPhase_fields marked _).2.2.2.1

theorem commitPublish_fields (m : Nat) (mt vt gm : Option Nat)
    (fs cs fps sz cp : Nat) (cms : Mspace) (st : CacheState) :
    (commitPublish m mt vt gm fs cs fps sz cp cms st).headerSize =
      st.headerSize ∧
    (commitPublish m mt vt gm fs cs fps sz cp cms st).gcCount = st.gcCount ∧
    (commitPublish m mt vt gm fs cs fps sz cp cms st).currentCapacity =
      st.currentCapacity ∧
    (commitPublish m mt vt gm fs cs fps sz cp cms st).maxCapacity =
      st.maxCapacity ∧
    (commitPublish m mt vt gm fs cs fps sz cp cms st).methodCodeMap =
      insertEntry (commitEntry m mt vt gm fs cs fps sz cp)
        st.methodCodeMap ∧
    (st.collectionInProgress = true →
      (commitPublish m mt vt gm fs cs fps sz cp cms st).liveBitmap =
        st.liveBitmap.map
          (fun bs => bs ++ [fromCodeToAllocation st.headerSize cp])) ∧
    (commitPublish m mt vt gm fs cs fps sz cp cms st).codeMspace = cms ∧
    (commitPublish m mt vt gm fs cs fps sz cp cms st).dataMspace =
      st.dataMspace ∧
    (commitPublish m mt vt gm fs cs fps sz cp cms st).ptrSize = st.ptrSize ∧
    (commitPublish m mt vt gm fs cs fps sz cp cms st).profilingInfos =
      st.profilingInfos := by
  by_cases hip : st.collectionInProgress = true <;>
    simp [commitPublish, hip]

theorem commitCodeInternal_fail (m : Nat) (mt vt gm : Option Nat)
    (fs cs fps sz : Nat) (st : CacheState)
    (h : (commitCodeInternal m mt vt gm fs cs fps sz st).fst = none) :
    commitCodeInternal m mt vt gm fs cs fps sz st = (none, st) := by
  simp only [commitCodeInternal] at h ⊢
  cases halloc : mspaceAlloc st.codeMspace (st.headerSize + sz) with
  | none => rfl
  | some p =>
    obtain ⟨a, cms⟩ := p
    rw [halloc] at h
    simp at h

theorem commitCodeInternal_commons (m : Nat) (mt vt gm : Option Nat)
    (fs cs fps sz : Nat) (st : CacheState) :
    (commitCodeInternal m mt vt gm fs cs fps sz st).snd.gcCount = st.gcCount ∧
    (commitCodeInternal m mt vt gm fs cs fps sz st).snd.currentCapacity =
      st.currentCapacity ∧
    (commitCodeInternal m mt vt gm fs cs fps sz st).snd.maxCapacity =
      st.maxCapacity := by
  simp only [commitCodeInternal]
  cases halloc : mspaceAlloc st.codeMspace (st.headerSize + sz) with
  | none => exact ⟨rfl, rfl, rfl⟩
  | some p =>
    obtain ⟨a, cms⟩ := p
    obtain ⟨_, h2, h3, h4, _, _, _, _, _, _⟩ :=
      commitPublish_fields m mt vt gm fs cs fps sz (a + st.headerSize) cms st
    exact ⟨h2, h3, h4⟩

theorem commitCode_gcCount_le (m : Nat) (mt vt gm : Option Nat)
    (fs cs fps sz : Nat) (marked : List Nat) (t : CacheState) :
    (commitCode m mt vt gm fs cs fps sz marked t).snd.gcCount ≤
      t.gcCount + 1 := by
  unfold commitCode
  cases hint : commitCodeInternal m mt vt gm fs cs fps sz t with
  | mk fst snd =>
    have hsndg : snd.gcCount = t.gcCount := by
      have h := (commitCodeInternal_commons m mt vt gm fs cs fps sz t).1
      rw [hint] at h
      exact h
    cases fst with
    | some r =>
      show snd.gcCount ≤ t.gcCount + 1
      omega
    | none =>
      show (commitCodeInternal m mt vt gm fs cs fps sz
        (garbageCollectCache marked snd)).snd.gcCount ≤ t.gcCount + 1
      have h1 := (commitCodeInternal_commons m mt vt gm fs cs fps sz
        (garbageCollectCache marked snd)).1
      have h2 := garbageCollectCache_gcCount marked snd
      omega

theorem reserveData_gcCount_le (dsize : Nat) (marked : List Nat)
    (t : CacheState) :
    (reserveData dsize marked t).snd.gcCount ≤ t.gcCount + 1 := by
  simp only [reserveData]
  cases h1 : mspaceAlloc t.dataMspace (roundUp dsize t.ptrSize) with
  | some p =>
    obtain ⟨a, dms⟩ := p
    show t.gcCount ≤ t.gcCount + 1
    omega
  | none =>
    cases h2 : mspaceAlloc (garbageCollectCache marked t).dataMspace
        (roundUp dsize t.ptrSize) with
    | some p =>
      obtain ⟨a, dms⟩ := p
      show (garbageCollectCache marked t).gcCount ≤ t.gcCount + 1
      rw [garbageCollectCache_gcCount marked t]
    | none =>
      show (garbageCollectCache marked t).gcCount ≤ t.gcCount + 1
      rw [garbageCollectCache_gcCount marked t]

/-- C3: `CommitCode` and `ReserveData` trigger at most one collector cycle
and one retry.  When the first and the retried allocation both fail with the
capacity fixed at `max_capacity`, both operations return null, exactly one
collector cycle has run, and the capacity is still `max_capacity`; moreover
for every state, either operation runs at most one cycle. -/
theorem commit_reserve_single_retry (m : Nat) (mt vt gm : Option Nat)
    (fs cs fps sz dsize : Nat) (marked : List Nat) (st : CacheState)
    (hcap : st.currentCapacity = st.maxCapacity)
    (hc1 : (commitCodeInternal m mt vt gm fs cs fps sz st).fst = none)
    (hc2 : (commitCodeInternal m mt vt gm fs cs fps sz
        (garbageCollectCache marked st)).fst = none)
    (hr1 : mspaceAlloc st.dataMspace (roundUp dsize st.ptrSize) = none)
    (hr2 : mspaceAlloc (garbageCollectCache marked st).dataMspace
        (roundUp dsize st.ptrSize) = none) :
    (commitCode m mt vt gm fs cs fps sz marked st).fst = none ∧
    (commitCode m mt vt gm fs cs fps sz marked st).snd.gcCount =
      st.gcCount + 1 ∧
    (commitCode m mt vt gm fs cs fps sz marked st).snd.currentCapacity =
      st.maxCapacity ∧
    (reserveData dsize marked st).fst = none ∧
    (reserveData dsize marked st).snd.gcCount = st.gcCount + 1 ∧
    (reserveData dsize marked st).snd.currentCapacity = st.maxCapacity ∧
    (∀ t : CacheState,
      (commitCode m mt vt gm fs cs fps sz marked t).snd.gcCount ≤
        t.gcCount + 1) ∧
    (∀ t : CacheState,
      (reserveData dsize marked t).snd.gcCount ≤ t.gcCount + 1) := by
  have hce1 := commitCodeInternal_fail m mt vt gm fs cs fps sz st hc1
  have hce2 := commitCodeInternal_fail m mt vt gm fs cs fps sz
    (garbageCollectCache marked st) hc2
  have hcommit : commitCode m mt vt gm fs cs fps sz marked st =
      (none, garbageCollectCache marked st) := by
    unfold commitCode
    rw [hce1]
    show commitCodeInternal m mt vt gm fs cs fps sz
      (garbageCollectCache marked st) = (none, garbageCollectCache marked st)
    exact hce2
  have hreserve : reserveData dsize marked st =
      (none, garbageCollectCache marked st) := by
    simp only [reserveData]
    rw [hr1, hr2]
  have hgc := garbageCollectCache_gcCount marked st
  have hgcap := garbageCollectCache_capacity_atMax marked st hcap
  refine ⟨?_, ?_, ?_, ?_, ?_, ?_,
    commitCode_gcCount_le m mt vt gm fs cs fps sz marked,
    reserveData_gcCount_le dsize marked⟩
  · rw [hcommit]
  · rw [hcommit]
    exact hgc
  · rw [hcommit]
    show (garbageCollectCache marked st).currentCapacity = st.maxCapacity
    rw [hgcap, hcap]
  · rw [hreserve]
  · rw [hreserve]
    exact hgc
  · rw [hreserve]
    show (garbageCollectCache marked st).currentCapacity = st.maxCapacity
    rw [hgcap, hcap]

/-- Witness for C3 at the concrete max-capacity cache: a 100000-byte code
commit and a 100000-byte data reservation each fail, run exactly one
collector cycle, fail once more, and return null with capacity still at max. -/
theorem commit_reserve_single_retry_witness :
    (commitCode 5 none none none 0 0 0 100000 [] exAtMax).fst = none ∧
    (commitCode 5 none none none 0 0 0 100000 [] exAtMax).snd.gcCount =
      exAtMax.gcCount + 1 ∧
    (commitCode 5 none none none 0 0 0 100000 [] exAtMax).snd.currentCapacity =
      exAtMax.maxCapacity ∧
    (reserveData 100000 [] exAtMax).fst = none ∧
    (reserveData 100000 [] exAtMax).snd.gcCount = exAtMax.gcCount + 1 ∧
    (reserveData 100000 [] exAtMax).snd.currentCapacity = exAtMax.maxCapacity ∧
    (commitCode 5 none none none 0 0 0 100000 [] exFresh).snd.gcCount ≤
      exFresh.gcCount + 1 ∧
    (reserveData 100000 [] exFresh).snd.gcCount ≤ exFresh.gcCount + 1 := by
  have h := commit_reserve_single_retry 5 none none none 0 0 0 100000 100000 []
    exAtMax (by decide) (by decide) (by decide) (by decide) (by decide)
  exact ⟨h.1, h.2.1, h.2.2.1, h.2.2.2.1, h.2.2.2.2.1, h.2.2.2.2.2.1,
    h.2.2.2.2.2.2.1 exFresh, h.2.2.2.2.2.2.2 exFresh⟩

theorem insertEntry_self_mem (e : CodeEntry) (l : List CodeEntry) :
    e ∈ insertEntry e l := by
  induction l with
  | nil => exact List.mem_singleton.mpr rfl
  | cons a tl ih =>
    unfold insertEntry
    split
    · exact List.mem_cons_self _ _
    · split
      · exact List.mem_cons_self _ _
      · exact List.mem_cons_of_mem _ ih

/-- C10: when a collection is in progress at the moment `CommitCodeInternal`
publishes a new catalog entry, the commit also sets the new allocation's bit
in the live bitmap, so — whatever additional addresses the checkpoint marks —
that same cycle's sweep keeps the freshly committed entry in the catalog. -/
theorem commit_during_collection_survives (m : Nat) (mt vt gm : Option Nat)
    (fs cs fps sz : Nat) (st : CacheState) (bs0 : List Nat) (r : Nat)
    (st1 : CacheState)
    (hip : st.collectionInProgress = true)
    (hbm : st.liveBitmap = some bs0)
    (h : commitCodeInternal m mt vt gm fs cs fps sz st = (some r, st1)) :
    fromCodeToAllocation st1.headerSize r ∈ st1.liveBitmap.getD [] ∧
    (∃ e, e ∈ st1.methodCodeMap ∧ e.codePtr = r) ∧
    (∀ marked : List Nat,
      ∃ e, e ∈ (sweepPhase (markPhase marked st1)).methodCodeMap ∧
        e.codePtr = r) := by
  simp only [commitCodeInternal] at h
  cases halloc : mspaceAlloc st.codeMspace (st.headerSize + sz) with
  | none =>
    rw [halloc] at h
    have h1 : (none : Option Nat) = some r := congrArg Prod.fst h
    exact absurd h1 (by simp)
  | some p =>
    obtain ⟨a, cms⟩ := p
    rw [halloc] at h
    have h1 : some (a + st.headerSize) = some r := congrArg Prod.fst h
    injection h1 with h1
    have h2 : commitPublish m mt vt gm fs cs fps sz (a + st.headerSize) cms st =
        st1 := congrArg Prod.snd h
    subst h1
    obtain ⟨p1, _, _, _, p5, p6, _, _, _, _⟩ :=
      commitPublish_fields m mt vt gm fs cs fps sz (a + st.headerSize) cms st
    rw [h2] at p1 p5 p6
    refine ⟨?_, ?_, ?_⟩
    · rw [p1, p6 hip, hbm]
      simp
    · rw [p5]
      exact ⟨commitEntry m mt vt gm fs cs fps sz (a + st.headerSize),
        insertEntry_self_mem _ _, rfl⟩
    · intro marked
      refine ⟨commitEntry m mt vt gm fs cs fps sz (a + st.headerSize), ?_, rfl⟩
      show commitEntry m mt vt gm fs cs fps sz (a + st.headerSize) ∈
        (sweepEntries (markPhase marked st1).headerSize
          ((markPhase marked st1).liveBitmap.getD [])
          (markPhase marked st1).methodCodeMap
          (markPhase marked st1).methods
          (markPhase marked st1).codeMspace
          (markPhase marked st1).dataMspace).fst
      apply sweepEntries_kept_of_live
      · show commitEntry m mt vt gm fs cs fps sz (a + st.headerSize) ∈
          st1.methodCodeMap
        rw [p5]
        exact insertEntry_self_mem _ _
      · show fromCodeToAllocation st1.headerSize (a + st.headerSize) ∈
          (st1.liveBitmap.map (fun bs => bs ++ marked)).getD []
        rw [p1, p6 hip, hbm]
        simp

/-- Witness for C10: on the concrete fresh cache with a cycle artificially in
progress (flag set, empty bitmap), committing method 9 sets its bit and the
sweep keeps it. -/
theorem commit_during_collection_survives_witness :
    (fromCodeToAllocation
        (commitCodeInternal 9 none none none 0 0 0 32
          exInProgress).snd.headerSize 8256 ∈
      (commitCodeInternal 9 none none none 0 0 0 32
          exInProgress).snd.liveBitmap.getD []) ∧
    (∃ e, e ∈ (commitCodeInternal 9 none none none 0 0 0 32
          exInProgress).snd.methodCodeMap ∧ e.codePtr = 8256) ∧
    (∀ marked : List Nat,
      ∃ e, e ∈ (sweepPhase (markPhase marked
          (commitCodeInternal 9 none none none 0 0 0 32
            exInProgress).snd)).methodCodeMap ∧
        e.codePtr = 8256) :=
  commit_during_collection_survives 9 none none none 0 0 0 32
    exInProgress [] 8256 _ rfl rfl rfl

/-- C6: every collecting (non-growth) collector cycle resets profiling
entirely.  Before the stack scan (after `prepPhase`), every method with a
catalog entry has its entry point rewritten to the interpreter bridge and
every profiling record is detached from its method; at the end of the sweep,
every profiling record — including those of entries that survive — is freed
from the data mspace and the profiling list is emptied. -/
theorem collection_resets_profiling (st : CacheState) (marked : List Nat)
    (hfresh : st.hasDoneOneCollection = false) :
    garbageCollectCache marked st =
      sweepPhase (markPhase marked (prepPhase (gcStart st))) ∧
    (∀ e ∈ st.methodCodeMap,
      ((prepPhase (gcStart st)).methods e.method).entryPoint =
        st.interpreterBridge) ∧
    (∀ p ∈ st.profilingInfos,
      ((prepPhase (gcStart st)).methods p.snd).profilingInfo = none) ∧
    (garbageCollectCache marked st).profilingInfos = [] ∧
    (∀ p ∈ st.profilingInfos,
      p.fst ∉ allocAddrs (garbageCollectCache marked st).dataMspace) := by
  have hred : garbageCollectCache marked st =
      sweepPhase (markPhase marked (prepPhase (gcStart st))) :=
    garbageCollectCache_fresh marked st hfresh
  refine ⟨hred, ?_, ?_, ?_, ?_⟩
  · intro e he
    show ((detachProfiling (gcStart st).profilingInfos
      (resetEntryPoints (gcStart st).interpreterBridge
        (gcStart st).methodCodeMap (gcStart st).methods)) e.method).entryPoint =
      st.interpreterBridge
    rw [detachProfiling_entryPoint]
    exact resetEntryPoints_mem _ _ _ _ (List.mem_map_of_mem CodeEntry.method he)
  · intro p hp
    show ((detachProfiling (gcStart st).profilingInfos
      (resetEntryPoints (gcStart st).interpreterBridge
        (gcStart st).methodCodeMap (gcStart st).methods)) p.snd).profilingInfo =
      none
    exact detachProfiling_mem _ _ _ (List.mem_map_of_mem Prod.snd hp)
  · rw [hred]
    rfl
  · intro p hp
    rw [hred]
    show p.fst ∉ allocAddrs
      ((markPhase marked (prepPhase (gcStart st))).profilingInfos.foldl
        (fun d q => mspaceFree d q.fst) _)
    exact foldFree_not_mem _ _ p hp

/-- Witness for C6: the concrete fresh cache with one committed entry and one
attached profiling record goes through a collecting cycle. -/
theorem collection_resets_profiling_witness :
    (garbageCollectCache [] exProfiled =
      sweepPhase (markPhase [] (prepPhase (gcStart exProfiled)))) ∧
    (∀ e ∈ exProfiled.methodCodeMap,
      ((prepPhase (gcStart exProfiled)).methods e.method).entryPoint =
        exProfiled.interpreterBridge) ∧
    (∀ p ∈ exProfiled.profilingInfos,
      ((prepPhase (gcStart exProfiled)).methods p.snd).profilingInfo = none) ∧
    (garbageCollectCache [] exProfiled).profilingInfos = [] ∧
    (∀ p ∈ exProfiled.profilingInfos,
      p.fst ∉ allocAddrs (garbageCollectCache [] exProfiled).dataMspace) :=
  collection_resets_profiling exProfiled [] (by decide)

/-- C1: after a marking-plus-sweeping collector cycle (here: the first cycle
of a cache, which always collects), for every catalog entry whose allocation
address is marked live in the bitmap, the owning method's entry point is
restored to the compiled entry's native code and the entry remains in the
catalog; for every entry not marked live, the owning method's call counter is
reset, its code allocation and each of its three auxiliary data allocations
(mapping table, value map, GC map — each independently, each possibly absent
with zero offset) are freed, and the entry is removed from the catalog.  The
catalog is assumed to hold distinct start addresses and distinct owning
methods (one entry per method). -/
theorem collection_sweep_per_entry (st : CacheState) (marked : List Nat)
    (e : CodeEntry)
    (hfresh : st.hasDoneOneCollection = false)
    (hkeys : (st.methodCodeMap.map CodeEntry.codePtr).Nodup)
    (hmeths : (st.methodCodeMap.map CodeEntry.method).Nodup)
    (he : e ∈ st.methodCodeMap) :
    (fromCodeToAllocation st.headerSize e.codePtr ∈ marked →
      e ∈ (garbageCollectCache marked st).methodCodeMap ∧
      ((garbageCollectCache marked st).methods e.method).entryPoint =
        headerEntryPoint e) ∧
    (fromCodeToAllocation st.headerSize e.codePtr ∉ marked →
      ((garbageCollectCache marked st).methods e.method).counter = 0 ∧
      (∀ p ∈ (garbageCollectCache marked st).methodCodeMap,
        p.codePtr ≠ e.codePtr) ∧
      fromCodeToAllocation st.headerSize e.codePtr ∉
        allocAddrs (garbageCollectCache marked st).codeMspace ∧
      (e.header.mappingTableOffset ≠ 0 →
        e.codePtr - e.header.mappingTableOffset ∉
          allocAddrs (garbageCollectCache marked st).dataMspace) ∧
      (e.header.vmapTableOffset ≠ 0 →
        e.codePtr - e.header.vmapTableOffset ∉
          allocAddrs (garbageCollectCache marked st).dataMspace) ∧
      (e.header.gcMapOffset ≠ 0 →
        e.codePtr - e.header.gcMapOffset ∉
          allocAddrs (garbageCollectCache marked st).dataMspace)) := by
  rw [garbageCollectCache_fresh marked st hfresh]
  constructor
  · intro hm
    constructor
    · exact sweepEntries_kept_of_live _ _ _ _ _ _ e he hm
    · exact sweepEntries_live_entryPoint _ _ _ _ _ _ e hmeths he hm
  · intro hm
    refine ⟨?_, ?_, ?_, ?_, ?_, ?_⟩
    · exact sweepEntries_dead_counter _ _ _ _ _ _ e hmeths he hm
    · exact sweepEntries_dead_removed _ _ _ _ _ _ e hkeys he hm
    · exact (sweepEntries_dead_freed _ _ _ _ _ _ e he hm).1
    · intro hoff
      exact not_mem_allocAddrs_of_sublist (foldFree_commons _ _).1
        ((sweepEntries_dead_freed _ _ _ _ _ _ e he hm).2.2.1 hoff)
    · intro hoff
      exact not_mem_allocAddrs_of_sublist (foldFree_commons _ _).1
        ((sweepEntries_dead_freed _ _ _ _ _ _ e he hm).2.2.2 hoff)
    · intro hoff
      exact not_mem_allocAddrs_of_sublist (foldFree_commons _ _).1
        ((sweepEntries_dead_freed _ _ _ _ _ _ e he hm).2.1 hoff)

/-- Witness for C1 on the concrete cache with one committed entry: a cycle
whose bitmap marks the entry's allocation (8192) keeps and restores it; a
cycle with an empty bitmap clears the counter, frees the code allocation and
removes the entry. -/
theorem collection_sweep_per_entry_witness :
    (exEntryCommitted ∈ (garbageCollectCache [8192] exCommitted).methodCodeMap ∧
      ((garbageCollectCache [8192] exCommitted).methods
        exEntryCommitted.method).entryPoint = headerEntryPoint exEntryCommitted) ∧
    (((garbageCollectCache [] exCommitted).methods
        exEntryCommitted.method).counter = 0 ∧
      (∀ p ∈ (garbageCollectCache [] exCommitted).methodCodeMap,
        p.codePtr ≠ exEntryCommitted.codePtr) ∧
      fromCodeToAllocation exCommitted.headerSize exEntryCommitted.codePtr ∉
        allocAddrs (garbageCollectCache [] exCommitted).codeMspace ∧
      (exEntryCommitted.header.mappingTableOffset ≠ 0 →
        exEntryCommitted.codePtr - exEntryCommitted.header.mappingTableOffset ∉
          allocAddrs (garbageCollectCache [] exCommitted).dataMspace) ∧
      (exEntryCommitted.header.vmapTableOffset ≠ 0 →
        exEntryCommitted.codePtr - exEntryCommitted.header.vmapTableOffset ∉
          allocAddrs (garbageCollectCache [] exCommitted).dataMspace) ∧
      (exEntryCommitted.header.gcMapOffset ≠ 0 →
        exEntryCommitted.codePtr - exEntryCommitted.header.gcMapOffset ∉
          allocAddrs (garbageCollectCache [] exCommitted).dataMspace)) := by
  have hlive := (collection_sweep_per_entry exCommitted [8192] exEntryCommitted
    (by decide) (by decide) (by decide) (by decide)).1 (by decide)
  have hdead := (collection_sweep_per_entry exCommitted [] exEntryCommitted
    (by decide) (by decide) (by decide) (by decide)).2 (by decide)
  exact ⟨hlive, hdead⟩

theorem collectPhase_capInv (marked : List Nat) (st : CacheState)
    (h : CapInv st) : CapInv (collectPhase marked st) := by
  obtain ⟨i1, i2, i3, i4, i5, i6, i7⟩ := h
  obtain ⟨_, _, f3, f4, _, _, _, _, _, f10, f11⟩ := collectPhase_fields marked st
  obtain ⟨s1, s2⟩ := collectPhase_mspace_sublists marked st
  refine ⟨?_, ?_, ?_, ?_, ?_, ?_, ?_⟩
  · rw [f10]
    exact le_trans (bytesInUse_le_of_sublist s1) i1
  · rw [f11]
    exact le_trans (bytesInUse_le_of_sublist s2) i2
  · rw [f10, f4]
    exact i3
  · rw [f11, f4]
    exact i4
  · rw [f4]
    exact i5
  · rw [f3]
    exact i6
  · rw [f4, f3]
    exact i7

theorem garbageCollectCache_capInv (marked : List Nat) (st : CacheState)
    (h : CapInv st) :
    CapInv (garbageCollectCache marked st) ∧
    st.currentCapacity ≤ (garbageCollectCache marked st).currentCapacity ∧
    (garbageCollectCache marked st).maxCapacity = st.maxCapacity := by
  obtain ⟨i1, i2, i3, i4, i5, i6, i7⟩ := h
  have hst : CapInv (gcStart st) := ⟨i1, i2, i3, i4, i5, i6, i7⟩
  by_cases h1 : st.hasDoneOneCollection = true
  · by_cases h2 : st.currentCapacity = st.maxCapacity
    · rw [garbageCollectCache_atMax marked st h1 h2]
      refine ⟨collectPhase_capInv marked _ hst, ?_, ?_⟩
      · rw [(collectPhase_fields marked _).2.2.2.1]
        exact Nat.le_refl _
      · exact (collectPhase_fields marked _).2.2.1
    · obtain ⟨g1, g2, g3, g4, g5, g6, g7, g8, g9, g10, g11, g12, g13⟩ :=
        garbageCollectCache_growth marked st h1 h2
      have hgrow := grownCapacity_ge st i7
      have hbc : bytesInUse (garbageCollectCache marked st).codeMspace =
          bytesInUse st.codeMspace := by
        unfold bytesInUse
        rw [g10]
      have hbd : bytesInUse (garbageCollectCache marked st).dataMspace =
          bytesInUse st.dataMspace := by
        unfold bytesInUse
        rw [g11]
      have hdiv : st.currentCapacity / 2 ≤ grownCapacity st / 2 :=
        Nat.div_le_div_right hgrow
      refine ⟨⟨?_, ?_, ?_, ?_, ?_, ?_, ?_⟩, ?_, g2⟩
      · rw [hbc, g12]
        exact le_trans i1 (le_trans (i3 ▸ Nat.le_refl _) hdiv)
      · rw [hbd, g13]
        exact le_trans i2 (le_trans (i4 ▸ Nat.le_refl _) hdiv)
      · rw [g12, g1]
      · rw [g13, g1]
      · rw [g1]
        exact grownCapacity_even st i5 i6
      · rw [g2]
        exact i6
      · rw [g1, g2]
        exact grownCapacity_le_max st
      · rw [g1]
        exact hgrow
  · rw [garbageCollectCache_fresh marked st (by simpa using h1)]
    refine ⟨collectPhase_capInv marked _ hst, ?_, ?_⟩
    · rw [(collectPhase_fields marked _).2.2.2.1]
      exact Nat.le_refl _
    · exact (collectPhase_fields marked _).2.2.1

theorem commitCodeInternal_capInv (m : Nat) (mt vt gm : Option Nat)
    (fs cs fps sz : Nat) (st : CacheState) (h : CapInv st) :
    CapInv (commitCodeInternal m mt vt gm fs cs fps sz st).snd ∧
    (commitCodeInternal m mt vt gm fs cs fps sz st).snd.currentCapacity =
      st.currentCapacity ∧
    (commitCodeInternal m mt vt gm fs cs fps sz st).snd.maxCapacity =
      st.maxCapacity := by
  obtain ⟨i1, i2, i3, i4, i5, i6, i7⟩ := h
  simp only [commitCodeInternal]
  cases halloc : mspaceAlloc st.codeMspace (st.headerSize + sz) with
  | none => exact ⟨⟨i1, i2, i3, i4, i5, i6, i7⟩, rfl, rfl⟩
  | some p =>
    obtain ⟨a, cms⟩ := p
    obtain ⟨_, _, q3, q4, _, _, q7, q8, _, _⟩ :=
      commitPublish_fields m mt vt gm fs cs fps sz (a + st.headerSize) cms st
    obtain ⟨a1, a2, _, a4, _⟩ := mspaceAlloc_some halloc
    refine ⟨⟨?_, ?_, ?_, ?_, ?_, ?_, ?_⟩, q3, q4⟩
    · show bytesInUse (commitPublish m mt vt gm fs cs fps sz
        (a + st.headerSize) cms st).codeMspace ≤ _
      rw [q7, a1, a2]
      omega
    · show bytesInUse (commitPublish m mt vt gm fs cs fps sz
        (a + st.headerSize) cms st).dataMspace ≤ _
      rw [q8]
      exact i2
    · rw [q7, a2, q3]
      exact i3
    · rw [q8, q3]
      exact i4
    · rw [q3]
      exact i5
    · rw [q4]
      exact i6
    · rw [q3, q4]
      exact i7

theorem commitCode_capInv (m : Nat) (mt vt gm : Option Nat)
    (fs cs fps sz : Nat) (marked : List Nat) (st : CacheState)
    (h : CapInv st) :
    CapInv (commitCode m mt vt gm fs cs fps sz marked st).snd ∧
    st.currentCapacity ≤
      (commitCode m mt vt gm fs cs fps sz marked st).snd.currentCapacity ∧
    (commitCode m mt vt gm fs cs fps sz marked st).snd.maxCapacity =
      st.maxCapacity := by
  unfold commitCode
  cases hint : commitCodeInternal m mt vt gm fs cs fps sz st with
  | mk fst snd =>
    obtain ⟨j1, j2, j3⟩ := commitCodeInternal_capInv m mt vt gm fs cs fps sz st
      ⟨h.1, h.2.1, h.2.2.1, h.2.2.2.1, h.2.2.2.2.1, h.2.2.2.2.2.1,
        h.2.2.2.2.2.2⟩
    rw [hint] at j1 j2 j3
    have j1' : CapInv snd := j1
    have j2' : snd.currentCapacity = st.currentCapacity := j2
    have j3' : snd.maxCapacity = st.maxCapacity := j3
    cases fst with
    | some r => exact ⟨j1', j2' ▸ Nat.le_refl _, j3'⟩
    | none =>
      obtain ⟨k1, k2, k3⟩ := garbageCollectCache_capInv marked snd j1'
      obtain ⟨l1, l2, l3⟩ := commitCodeInternal_capInv m mt vt gm fs cs fps sz
        (garbageCollectCache marked snd) k1
      refine ⟨l1, ?_, ?_⟩
      · rw [l2]
        omega
      · rw [l3, k3, j3']

theorem reserveData_capInv (dsize : Nat) (marked : List Nat) (st : CacheState)
    (h : CapInv st) :
    CapInv (reserveData dsize marked st).snd ∧
    st.currentCapacity ≤ (reserveData dsize marked st).snd.currentCapacity ∧
    (reserveData dsize marked st).snd.maxCapacity = st.maxCapacity := by
  obtain ⟨i1, i2, i3, i4, i5, i6, i7⟩ := h
  simp only [reserveData]
  cases h1 : mspaceAlloc st.dataMspace (roundUp dsize st.ptrSize) with
  | some p =>
    obtain ⟨a, dms⟩ := p
    obtain ⟨a1, a2, _, a4, _⟩ := mspaceAlloc_some h1
    refine ⟨⟨i1, ?_, i3, ?_, i5, i6, i7⟩, Nat.le_refl _, rfl⟩
    · show bytesInUse dms ≤ dms.footprintLimit
      rw [a1, a2]
      omega
    · show dms.footprintLimit = st.currentCapacity / 2
      rw [a2]
      exact i4
  | none =>
    obtain ⟨k1, k2, k3⟩ := garbageCollectCache_capInv marked st
      ⟨i1, i2, i3, i4, i5, i6, i7⟩
    cases h2 : mspaceAlloc (garbageCollectCache marked st).dataMspace
        (roundUp dsize st.ptrSize) with
    | some p =>
      obtain ⟨a, dms⟩ := p
      obtain ⟨a1, a2, _, a4, _⟩ := mspaceAlloc_some h2
      obtain ⟨k11, k12, k13, k14, k15, k16, k17⟩ := k1
      refine ⟨⟨k11, ?_, k13, ?_, k15, k16, k17⟩, k2, k3⟩
      · show bytesInUse dms ≤ dms.footprintLimit
        rw [a1, a2]
        omega
      · show dms.footprintLimit =
          (garbageCollectCache marked st).currentCapacity / 2
        rw [a2]
        exact k14
    | none => exact ⟨k1, k2, k3⟩

theorem clearData_capInv (addr : Nat) (st : CacheState) (h : CapInv st) :
    CapInv (clearData addr st) ∧
    (clearData addr st).currentCapacity = st.currentCapacity ∧
    (clearData addr st).maxCapacity = st.maxCapacity := by
  obtain ⟨i1, i2, i3, i4, i5, i6, i7⟩ := h
  refine ⟨⟨i1, ?_, i3, ?_, i5, i6, i7⟩, rfl, rfl⟩
  · exact le_trans
      (bytesInUse_le_of_sublist (mspaceFree_allocs_sublist st.dataMspace addr))
      i2
  · exact i4

theorem addProfilingInfoInternal_capInv (m el : Nat) (st : CacheState)
    (h : CapInv st) :
    CapInv (addProfilingInfoInternal m el st).snd ∧
    (addProfilingInfoInternal m el st).snd.currentCapacity =
      st.currentCapacity ∧
    (addProfilingInfoInternal m el st).snd.maxCapacity = st.maxCapacity := by
  obtain ⟨i1, i2, i3, i4, i5, i6, i7⟩ := h
  simp only [addProfilingInfoInternal]
  cases hpi : (st.methods m).profilingInfo with
  | some i => exact ⟨⟨i1, i2, i3, i4, i5, i6, i7⟩, rfl, rfl⟩
  | none =>
    cases halloc : mspaceAlloc st.dataMspace
        (roundUp (st.piSize + st.icSize * el) st.ptrSize) with
    | none => exact ⟨⟨i1, i2, i3, i4, i5, i6, i7⟩, rfl, rfl⟩
    | some p =>
      obtain ⟨a, dms⟩ := p
      obtain ⟨a1, a2, _, a4, _⟩ := mspaceAlloc_some halloc
      refine ⟨⟨i1, ?_, i3, ?_, i5, i6, i7⟩, rfl, rfl⟩
      · show bytesInUse dms ≤ dms.footprintLimit
        rw [a1, a2]
        omega
      · show dms.footprintLimit = st.currentCapacity / 2
        rw [a2]
        exact i4

theorem addProfilingInfo_capInv (m el : Nat) (retryA : Bool)
    (marked : List Nat) (st : CacheState) (h : CapInv st) :
    CapInv (addProfilingInfo m el retryA marked st).snd ∧
    st.currentCapacity ≤
      (addProfilingInfo m el retryA marked st).snd.currentCapacity ∧
    (addProfilingInfo m el retryA marked st).snd.maxCapacity =
      st.maxCapacity := by
  unfold addProfilingInfo
  cases hint : addProfilingInfoInternal m el st with
  | mk fst snd =>
    obtain ⟨j1, j2, j3⟩ := addProfilingInfoInternal_capInv m el st h
    rw [hint] at j1 j2 j3
    have j1' : CapInv snd := j1
    have j2' : snd.currentCapacity = st.currentCapacity := j2
    have j3' : snd.maxCapacity = st.maxCapacity := j3
    cases fst with
    | some r => exact ⟨j1', j2' ▸ Nat.le_refl _, j3'⟩
    | none =>
      cases retryA with
      | false => exact ⟨j1', j2' ▸ Nat.le_refl _, j3'⟩
      | true =>
        obtain ⟨k1, k2, k3⟩ := garbageCollectCache_capInv marked snd j1'
        obtain ⟨l1, l2, l3⟩ := addProfilingInfoInternal_capInv m el
          (garbageCollectCache marked snd) k1
        refine ⟨?_, ?_, ?_⟩
        · exact l1
        · show st.currentCapacity ≤ (addProfilingInfoInternal m el
            (garbageCollectCache marked snd)).snd.currentCapacity
          rw [l2]
          omega
        · show (addProfilingInfoInternal m el
            (garbageCollectCache marked snd)).snd.maxCapacity = st.maxCapacity
          rw [l3, k3, j3']

theorem removeEntriesIn_mspaces (hs : Nat) (owned : List Nat)
    (l : List CodeEntry) (cms dms : Mspace) :
    (removeEntriesIn hs owned l cms dms).snd.fst.allocs.Sublist cms.allocs ∧
    (removeEntriesIn hs owned l cms dms).snd.fst.footprintLimit =
      cms.footprintLimit ∧
    (removeEntriesIn hs owned l cms dms).snd.snd.allocs.Sublist dms.allocs ∧
    (removeEntriesIn hs owned l cms dms).snd.snd.footprintLimit =
      dms.footprintLimit := by
  induction l generalizing cms dms with
  | nil => exact ⟨List.Sublist.refl _, rfl, List.Sublist.refl _, rfl⟩
  | cons e tl ih =>
    simp only [removeEntriesIn]
    split
    · refine ⟨(ih _ _).1.trans (mspaceFree_allocs_sublist _ _), ?_,
        (ih _ _).2.2.1.trans (freeCode_snd_sublist _ _ _ _), ?_⟩
      · rw [(ih _ _).2.1, freeCode_fst]
        exact (mspaceFree_commons _ _).1
      · rw [(ih _ _).2.2.2]
        exact (freeCode_snd_commons _ _ _ _).1
    · exact ih _ _

theorem removeProfilingIn_mspaces (owned : List Nat) (l : List (Nat × Nat))
    (ms : Nat → MethodState) (dms : Mspace) :
    (removeProfilingIn owned l ms dms).snd.snd.allocs.Sublist dms.allocs ∧
    (removeProfilingIn owned l ms dms).snd.snd.footprintLimit =
      dms.footprintLimit := by
  induction l generalizing ms dms with
  | nil => exact ⟨List.Sublist.refl _, rfl⟩
  | cons p tl ih =>
    simp only [removeProfilingIn]
    split
    · refine ⟨(ih _ _).1.trans (mspaceFree_allocs_sublist _ _), ?_⟩
      rw [(ih _ _).2]
      exact (mspaceFree_commons _ _).1
    · exact ih _ _

theorem removeMethodsIn_capInv (owned : List Nat) (st : CacheState)
    (h : CapInv st) :
    CapInv (removeMethodsIn owned st) ∧
    (removeMethodsIn owned st).currentCapacity = st.currentCapacity ∧
    (removeMethodsIn owned st).maxCapacity = st.maxCapacity := by
  obtain ⟨i1, i2, i3, i4, i5, i6, i7⟩ := h
  obtain ⟨r1, r2, r3, r4⟩ :=
    removeEntriesIn_mspaces st.headerSize owned st.methodCodeMap
      st.codeMspace st.dataMspace
  obtain ⟨q1, q2⟩ := removeProfilingIn_mspaces owned st.profilingInfos
    st.methods (removeEntriesIn st.headerSize owned st.methodCodeMap
      st.codeMspace st.dataMspace).snd.snd
  refine ⟨⟨?_, ?_, ?_, ?_, i5, i6, i7⟩, rfl, rfl⟩
  · show bytesInUse (removeEntriesIn st.headerSize owned st.methodCodeMap
      st.codeMspace st.dataMspace).snd.fst ≤
      (removeEntriesIn st.headerSize owned st.methodCodeMap
        st.codeMspace st.dataMspace).snd.fst.footprintLimit
    rw [r2]
    exact le_trans (bytesInUse_le_of_sublist r1) i1
  · show bytesInUse (removeProfilingIn owned st.profilingInfos st.methods
      (removeEntriesIn st.headerSize owned st.methodCodeMap st.codeMspace
        st.dataMspace).snd.snd).snd.snd ≤
      (removeProfilingIn owned st.profilingInfos st.methods
        (removeEntriesIn st.headerSize owned st.methodCodeMap st.codeMspace
          st.dataMspace).snd.snd).snd.snd.footprintLimit
    rw [q2, r4]
    exact le_trans (bytesInUse_le_of_sublist (q1.trans r3)) i2
  · show (removeEntriesIn st.headerSize owned st.methodCodeMap st.codeMspace
      st.dataMspace).snd.fst.footprintLimit = st.currentCapacity / 2
    rw [r2]
    exact i3
  · show (removeProfilingIn owned st.profilingInfos st.methods
      (removeEntriesIn st.headerSize owned st.methodCodeMap st.codeMspace
        st.dataMspace).snd.snd).snd.snd.footprintLimit = st.currentCapacity / 2
    rw [q2, r4]
    exact i4

theorem applyOp_capInv (st : CacheState) (op : Op) (h : CapInv st) :
    CapInv (applyOp st op) ∧
    st.currentCapacity ≤ (applyOp st op).currentCapacity ∧
    (applyOp st op).maxCapacity = st.maxCapacity := by
  cases op with
  | commit m mt vt gm fs cs fps sz marked =>
    exact commitCode_capInv m mt vt gm fs cs fps sz marked st h
  | reserve size marked => exact reserveData_capInv size marked st h
  | clear addr =>
    obtain ⟨j1, j2, j3⟩ := clearData_capInv addr st h
    exact ⟨j1, j2 ▸ Nat.le_refl _, j3⟩
  | collect marked => exact garbageCollectCache_capInv marked st h
  | addProfiling m el retryA marked =>
    exact addProfilingInfo_capInv m el retryA marked st h
  | removeIn owned =>
    obtain ⟨j1, j2, j3⟩ := removeMethodsIn_capInv owned st h
    exact ⟨j1, j2 ▸ Nat.le_refl _, j3⟩

theorem run_capInv (st : CacheState) (ops : List Op) (h : CapInv st) :
    CapInv (run st ops) := by
  induction ops generalizing st with
  | nil => exact h
  | cons op tl ih => exact ih _ (applyOp_capInv st op h).1

/-- C5: from any successfully constructed cache, after any sequence of
operations (commits, data reservations and frees, collections, profiling
attaches, scope removals), the sum of code bytes in use and data bytes in use
is at most `current_capacity`, `current_capacity` is at most `max_capacity`,
and `current_capacity` does not decrease across any further operation. -/
theorem capacity_invariant (hs ps pis ics bridge ic mc : Nat)
    (ops : List Op) (st0 : CacheState)
    (hok : create hs ps pis ics bridge ic mc true true = Except.ok st0)
    (hic : ic ≤ mc) :
    codeCacheSize (run st0 ops) + dataCacheSize (run st0 ops) ≤
      (run st0 ops).currentCapacity ∧
    (run st0 ops).currentCapacity ≤ (run st0 ops).maxCapacity ∧
    (∀ op : Op,
      (run st0 ops).currentCapacity ≤ (applyOp (run st0 ops) op).currentCapacity) := by
  have hst0 : st0 = createdState hs ps pis ics bridge ic mc := by
    unfold create at hok
    split at hok
    · exact absurd hok (by simp)
    · split at hok
      · exact absurd hok (by simp)
      · injection hok with hok
        exact hok.symm
  have hinv0 : CapInv st0 := by
    rw [hst0]
    exact createdState_capInv hs ps pis ics bridge ic mc hic
  obtain ⟨i1, i2, i3, i4, i5, i6, i7⟩ := run_capInv st0 ops hinv0
  refine ⟨?_, i7, ?_⟩
  · unfold codeCacheSize dataCacheSize
    have hc := le_trans i1 (Nat.le_of_eq i3)
    have hd := le_trans i2 (Nat.le_of_eq i4)
    omega
  · intro op
    exact (applyOp_capInv (run st0 ops) op
      ⟨i1, i2, i3, i4, i5, i6, i7⟩).2.1

/-- Witness for C5: the concrete fresh cache run through a commit, a
reservation, a profiling attach and a collection. -/
theorem capacity_invariant_witness :
    codeCacheSize (run exFresh
        [Op.commit 5 none none none 0 0 0 100 [],
         Op.reserve 40 [],
         Op.addProfiling 5 2 true [],
         Op.collect []]) +
      dataCacheSize (run exFresh
        [Op.commit 5 none none none 0 0 0 100 [],
         Op.reserve 40 [],
         Op.addProfiling 5 2 true [],
         Op.collect []]) ≤
      (run exFresh
        [Op.commit 5 none none none 0 0 0 100 [],
         Op.reserve 40 [],
         Op.addProfiling 5 2 true [],
         Op.collect []]).currentCapacity ∧
    (run exFresh
        [Op.commit 5 none none none 0 0 0 100 [],
         Op.reserve 40 [],
         Op.addProfiling 5 2 true [],
         Op.collect []]).currentCapacity ≤
      (run exFresh
        [Op.commit 5 none none none 0 0 0 100 [],
         Op.reserve 40 [],
         Op.addProfiling 5 2 true [],
         Op.collect []]).maxCapacity ∧
    (∀ op : Op,
      (run exFresh
        [Op.commit 5 none none none 0 0 0 100 [],
         Op.reserve 40 [],
         Op.addProfiling 5 2 true [],
         Op.collect []]).currentCapacity ≤
      (applyOp (run exFresh
        [Op.commit 5 none none none 0 0 0 100 [],
         Op.reserve 40 [],
         Op.addProfiling 5 2 true [],
         Op.collect []]) op).currentCapacity) :=
  capacity_invariant 64 8 64 16 7 8192 16384
    [Op.commit 5 none none none 0 0 0 100 [],
     Op.reserve 40 [],
     Op.addProfiling 5 2 true [],
     Op.collect []] exFresh rfl (by decide)

end JitCache
